import Mathlib

/-!
# arcan_math.c: a shallow embedding and its verified properties

The 3D math kernel of `src/arcan_math.c` is embedded over an arbitrary
ordered field `α` (instantiated with `ℝ` in the theorems and runnable over
`ℚ`).  C `float` values are read as exact field elements.  The libm
functions the code calls (`sqrt`, `sinf`, `cosf`, `acos`, `sin`) and the
constant `M_PI` are passed as explicit arguments, so every definition stays
executable; the theorems instantiate them with `Real.sqrt`, `Real.sin`,
`Real.cos`, `Real.arccos` and `Real.pi`.

Caller-owned `float*` buffers are functions `Nat → α`; a store `m[i] = v`
is `Function.update m i v`.
-/

namespace Arcan

/-- Modelled from the spec: the `vector` record of the absent header
`arcan_math.h`, three float components `x`, `y`, `z`. -/
structure vector (α : Type) where
  x : α
  y : α
  z : α
deriving DecidableEq, Repr

/-- Modelled from the spec: the `quat` record of the absent header
`arcan_math.h`, four float components `x`, `y`, `z`, `w`. -/
structure quat (α : Type) where
  x : α
  y : α
  z : α
  w : α
deriving DecidableEq, Repr

/-- Modelled from the spec: the `orientation` record of the absent header
`arcan_math.h`; `update_view` stores into `rollf`, `pitchf`, `yawf` and the
16-float buffer `matr`. -/
structure orientation (α : Type) where
  rollf : α
  pitchf : α
  yawf : α
  matr : Nat → α

section defs

variable {α : Type} [LinearOrderedField α]

/-! ## Vectors -/

/-- Source function `build_vect` (arcan_math.c:217). -/
def build_vect (x y z : α) : vector α := ⟨x, y, z⟩

/-- Source function `mul_vectorf` (arcan_math.c:223). -/
def mul_vectorf (a : vector α) (f : α) : vector α := ⟨a.x * f, a.y * f, a.z * f⟩

/-- Source function `len_vector` (arcan_math.c:243); `sqrt` is the libm square root. -/
def len_vector (sqrt : α → α) (invect : vector α) : α :=
  sqrt (invect.x * invect.x + invect.y * invect.y + invect.z * invect.z)

/-- Source function `crossp_vector` (arcan_math.c:248). -/
def crossp_vector (a b : vector α) : vector α :=
  ⟨a.y * b.z - a.z * b.y, a.z * b.x - a.x * b.z, a.x * b.y - a.y * b.x⟩

/-- Source function `dotp_vector` (arcan_math.c:258). -/
def dotp_vector (a b : vector α) : α := a.x * b.x + a.y * b.y + a.z * b.z

/-- Source function `sub_vector` (arcan_math.c:263). -/
def sub_vector (a b : vector α) : vector α := ⟨a.x - b.x, a.y - b.y, a.z - b.z⟩

/-- Source function `add_vector` (arcan_math.c:272). -/
def add_vector (a b : vector α) : vector α := ⟨a.x + b.x, a.y + b.y, a.z + b.z⟩

/-- Source function `norm_vector` (arcan_math.c:292): the guard compares the length with
`0.0000001`; past the guard each component is MULTIPLIED by the length, as
the source does. -/
def norm_vector (sqrt : α → α) (invect : vector α) : vector α :=
  let empty : vector α := ⟨0, 0, 0⟩
  let len := len_vector sqrt invect
  if len < 1 / 10000000 then empty
  else ⟨invect.x * len, invect.y * len, invect.z * len⟩

/-! ## Quaternions -/

/-- Source function `build_quat` (arcan_math.c:229); `sin`, `cos` are libm `sinf`, `cosf` and
`pi` is `M_PI`. -/
def build_quat (sin cos : α → α) (pi : α) (angdeg vx vy vz : α) : quat α :=
  let ang := angdeg / 180 * pi
  let res := sin (ang / 2)
  { w := cos (ang / 2), x := vx * res, y := vy * res, z := vz * res }

/-- Source function `inv_quat` (arcan_math.c:307). -/
def inv_quat (src : quat α) : quat α := ⟨-src.x, -src.y, -src.z, src.w⟩

/-- Source function `mul_quatf` (arcan_math.c:341). -/
def mul_quatf (a : quat α) (v : α) : quat α := ⟨a.x * v, a.y * v, a.z * v, a.w * v⟩

/-- Source function `mul_quat` (arcan_math.c:352). -/
def mul_quat (a b : quat α) : quat α :=
  { w := a.w * b.w - a.x * b.x - a.y * b.y - a.z * b.z,
    x := a.w * b.x + a.x * b.w + a.y * b.z - a.z * b.y,
    y := a.w * b.y + a.y * b.w + a.z * b.x - a.x * b.z,
    z := a.w * b.z + a.z * b.w + a.x * b.y - a.y * b.x }

/-- Source function `add_quat` (arcan_math.c:362). -/
def add_quat (a b : quat α) : quat α := ⟨a.x + b.x, a.y + b.y, a.z + b.z, a.w + b.w⟩

/-- Source function `dot_quat` (arcan_math.c:373). -/
def dot_quat (a b : quat α) : α := a.x * b.x + a.y * b.y + a.z * b.z + a.w * b.w

/-- Source function `slerp_quatfl` (arcan_math.c:412); `acos`, `sin` are the libm functions. -/
def slerp_quatfl (acos sin : α → α) (a b : quat α) (fact : α) (r360 : Bool) : quat α :=
  let ct0 := dot_quat a b
  let flip : Bool := r360 && decide (ct0 < 1)
  let ct := if flip then -ct0 else ct0
  let th := acos ct
  let sth := sin th
  let weight_a := if sth > 5 / 1000 then sin ((1 - fact) * th) / sth else 1 - fact
  let weight_b0 := if sth > 5 / 1000 then sin (fact * th) / sth else fact
  let weight_b := if flip then -weight_b0 else weight_b0
  add_quat (mul_quatf a weight_a) (mul_quatf b weight_b)

/-- Source function `slerp_quat180` (arcan_math.c:455). -/
def slerp_quat180 (acos sin : α → α) (a b : quat α) (fact : α) : quat α :=
  slerp_quatfl acos sin a b fact false

/-- Source function `slerp_quat360` (arcan_math.c:456). -/
def slerp_quat360 (acos sin : α → α) (a b : quat α) (fact : α) : quat α :=
  slerp_quatfl acos sin a b fact true

/-- The sixteen stores of `matr_quatf` (arcan_math.c:463-478), in source
order, into the buffer `dmatr`. -/
def matr_quatf_stores (a : quat α) (dmatr : Nat → α) : Nat → α :=
  let d := Function.update dmatr 0 (1 - 2 * (a.y * a.y + a.z * a.z))
  let d := Function.update d 1 (2 * (a.x * a.y + a.z * a.w))
  let d := Function.update d 2 (2 * (a.x * a.z - a.y * a.w))
  let d := Function.update d 3 0
  let d := Function.update d 4 (2 * (a.x * a.y - a.z * a.w))
  let d := Function.update d 5 (1 - 2 * (a.x * a.x + a.z * a.z))
  let d := Function.update d 6 (2 * (a.z * a.y + a.x * a.w))
  let d := Function.update d 7 0
  let d := Function.update d 8 (2 * (a.x * a.z + a.y * a.w))
  let d := Function.update d 9 (2 * (a.y * a.z - a.x * a.w))
  let d := Function.update d 10 (1 - 2 * (a.x * a.x + a.y * a.y))
  let d := Function.update d 11 0
  let d := Function.update d 12 0
  let d := Function.update d 13 0
  let d := Function.update d 14 0
  Function.update d 15 1

/-- Source function `matr_quatf` (arcan_math.c:460): a null `dmatr` is `none` and is returned
as it came; a non-null buffer receives the sixteen stores. -/
def matr_quatf (a : quat α) (dmatr : Option (Nat → α)) : Option (Nat → α) :=
  match dmatr with
  | some d => some (matr_quatf_stores a d)
  | none => none

/-- Source function `build_quat_euler` (arcan_math.c:506). -/
def build_quat_euler (sin cos : α → α) (pi : α) (roll pitch yaw : α) : quat α :=
  mul_quat (mul_quat (build_quat sin cos pi pitch 1 0 0) (build_quat sin cos pi yaw 0 1 0))
    (build_quat sin cos pi roll 0 0 1)

/-- Source function `update_view` (arcan_math.c:512).  The locals keep the source's names:
`rollq` is built from `yaw` about Y and `yawq` from `roll` about Z.  The
member array `dst->matr` is never null, so `matr_quatf` receives `some`. -/
def update_view (sin cos : α → α) (pi : α) (dst : orientation α) (roll pitch yaw : α) :
    orientation α :=
  let dst := { dst with pitchf := pitch }
  let dst := { dst with rollf := roll }
  let dst := { dst with yawf := yaw }
  let pitchq := build_quat sin cos pi pitch 1 0 0
  let rollq := build_quat sin cos pi yaw 0 1 0
  let yawq := build_quat sin cos pi roll 0 0 1
  let res := mul_quat (mul_quat pitchq yawq) rollq
  match matr_quatf res (some dst.matr) with
  | some m => { dst with matr := m }
  | none => dst

/-! ## Matrices -/

/-- Source function `mult_matrix_vecf` (arcan_math.c:35): the loop `i = 0..3` storing into
`out`. -/
def mult_matrix_vecf (matrix inp out : Nat → α) : Nat → α :=
  (List.range 4).foldl (fun out i =>
    Function.update out i
      (inp 0 * matrix (0 * 4 + i) + inp 1 * matrix (1 * 4 + i) +
       inp 2 * matrix (2 * 4 + i) + inp 3 * matrix (3 * 4 + i))) out

/-- Source function `multiply_matrix` (arcan_math.c:49): outer loop `i = 0, 4, 8, 12`, inner
loop `j = 0..3`; `dst` is `restrict`, so `a` and `b` are read unmodified. -/
def multiply_matrix (dst a b : Nat → α) : Nat → α :=
  [0, 4, 8, 12].foldl (fun dst i =>
    (List.range 4).foldl (fun dst j =>
      Function.update dst (i + j)
        (b i * a j + b (i + 1) * a (j + 4) + b (i + 2) * a (j + 8) + b (i + 3) * a (j + 12)))
      dst) dst

/-- Source function `translate_matrix` (arcan_math.c:68). -/
def translate_matrix (m : Nat → α) (xt yt zt : α) : Nat → α :=
  let m := Function.update m 12 (m 0 * xt + m 4 * yt + m 8 * zt + m 12)
  let m := Function.update m 13 (m 1 * xt + m 5 * yt + m 9 * zt + m 13)
  let m := Function.update m 14 (m 2 * xt + m 6 * yt + m 10 * zt + m 14)
  Function.update m 15 (m 3 * xt + m 7 * yt + m 11 * zt + m 15)

/-- The static table `midentity` (arcan_math.c:76). -/
def midentity : List α :=
  [1, 0, 0, 0,
   0, 1, 0, 0,
   0, 0, 1, 0,
   0, 0, 0, 1]

/-- Source function `identity_matrix` (arcan_math.c:82): `memcpy` of the 16 floats of
`midentity` over the start of `m`. -/
def identity_matrix (m : Nat → α) : Nat → α :=
  fun i => if i < 16 then (midentity : List α).getD i 0 else m i

/-- Result of `project_matrix`: the returned `int` and the contents of the
three output cells after the call. -/
structure project_result (α : Type) where
  ret : Int
  winx : α
  winy : α
  winz : α

/-- Source function `project_matrix` (arcan_math.c:160).  `winx`, `winy`, `winz` are the
contents of the output cells before the call; the local arrays `in` and
`out` start from an arbitrary filling (zero here, every cell read is
written first). -/
def project_matrix (objx objy objz : α) (modelMatrix projMatrix : Nat → α)
    (viewport : Nat → Int) (winx winy winz : α) : project_result α :=
  let inp : Nat → α := fun _ => 0
  let out : Nat → α := fun _ => 0
  let inp := Function.update inp 0 objx
  let inp := Function.update inp 1 objy
  let inp := Function.update inp 2 objz
  let inp := Function.update inp 3 1
  let out := mult_matrix_vecf modelMatrix inp out
  let inp := mult_matrix_vecf projMatrix out inp
  if inp 3 = 0 then ⟨0, winx, winy, winz⟩
  else
    let inp := Function.update inp 0 (inp 0 / inp 3)
    let inp := Function.update inp 1 (inp 1 / inp 3)
    let inp := Function.update inp 2 (inp 2 / inp 3)
    let inp := Function.update inp 0 (inp 0 * (5 / 10) + 5 / 10)
    let inp := Function.update inp 1 (inp 1 * (5 / 10) + 5 / 10)
    let inp := Function.update inp 2 (inp 2 * (5 / 10) + 5 / 10)
    let inp := Function.update inp 0 (inp 0 * (viewport 2 : α) + (viewport 0 : α))
    let inp := Function.update inp 1 (inp 1 * (viewport 3 : α) + (viewport 1 : α))
    ⟨1, inp 0, inp 1, inp 2⟩

/-! ## Point in polygon -/

/-- One pass of the loop body of `pinpoly` (arcan_math.c:203-205) at index
`i`, previous index `j` and crossing flag `c`; yields the next `(j, c)`
(`j = i++` makes the next `j` the current `i`). -/
def pinpoly_step (vertx verty : Nat → α) (testx testy : α) (jc : Nat × Int) (i : Nat) :
    Nat × Int :=
  let j := jc.1
  let c := jc.2
  if (decide (verty i > testy) != decide (verty j > testy)) &&
      decide (testx < (vertx j - vertx i) * (testy - verty i) / (verty j - verty i) + vertx i)
  then (i, if c = 0 then 1 else 0)
  else (i, c)

/-- Source function `pinpoly` (arcan_math.c:199): `i` runs over `0..nvert-1`, `j` starts at
`nvert-1`, `c` at `0`. -/
def pinpoly (nvert : Nat) (vertx verty : Nat → α) (testx testy : α) : Int :=
  ((List.range nvert).foldl (pinpoly_step vertx verty testx testy) (nvert - 1, 0)).2

/-! ## Quaternion normalisation and normalised interpolation -/

/-- Source function `norm_quat` (arcan_math.c:318): the fast path is taken when
`val > 0.99999 && val < 1.000001`, both comparisons strict; `sqrt` is libm
`sqrtf`. -/
def norm_quat (sqrt : α → α) (src : quat α) : quat α :=
  let val := src.x * src.x + src.y * src.y + src.z * src.z + src.w * src.w
  if val > 99999 / 100000 ∧ val < 1000001 / 1000000 then src
  else
    let val := sqrt val
    ⟨src.x / val, src.y / val, src.z / val, src.w / val⟩

/-- Source function `nlerp_quatfl` (arcan_math.c:442).  In the `r360` branch both
summands are built from `a`, as the source writes them. -/
def nlerp_quatfl (sqrt : α → α) (a b : quat α) (fact : α) (r360 : Bool) : quat α :=
  let tinv := 1 - fact
  let rq :=
    if r360 && decide (dot_quat a b < 0) then
      add_quat (mul_quatf a tinv) (mul_quatf a (-fact))
    else
      add_quat (mul_quatf a tinv) (mul_quatf b fact)
  norm_quat sqrt rq

/-- Source function `nlerp_quat180` (arcan_math.c:457). -/
def nlerp_quat180 (sqrt : α → α) (a b : quat α) (fact : α) : quat α :=
  nlerp_quatfl sqrt a b fact false

/-- Source function `nlerp_quat360` (arcan_math.c:458). -/
def nlerp_quat360 (sqrt : α → α) (a b : quat α) (fact : α) : quat α :=
  nlerp_quatfl sqrt a b fact true

/-! ## Camera and projection matrices -/

/-- Source function `matr_lookat` (arcan_math.c:98): ten stores into `m` (cells
3, 7, 11, 12, 13, 14 are not written), then `translate_matrix` by the negated
position. -/
def matr_lookat (sqrt : α → α) (m : Nat → α) (position dstpos up : vector α) : Nat → α :=
  let fwd := norm_vector sqrt (sub_vector dstpos position)
  let side := norm_vector sqrt (crossp_vector fwd up)
  let rup := crossp_vector side fwd
  let m := Function.update m 0 side.x
  let m := Function.update m 1 rup.x
  let m := Function.update m 2 (-fwd.x)
  let m := Function.update m 4 side.y
  let m := Function.update m 5 rup.y
  let m := Function.update m 6 (-fwd.y)
  let m := Function.update m 8 side.z
  let m := Function.update m 9 rup.z
  let m := Function.update m 10 (-fwd.z)
  let m := Function.update m 15 1
  translate_matrix m (-position.x) (-position.y) (-position.z)

/-- Source function `build_orthographic_matrix` (arcan_math.c:122). -/
def build_orthographic_matrix (m : Nat → α) (left right bottom top nearf farf : α) : Nat → α :=
  let irml := 1 / (right - left)
  let itmb := 1 / (top - bottom)
  let ifmn := 1 / (farf - nearf)
  let m := Function.update m 0 (2 * irml)
  let m := Function.update m 1 0
  let m := Function.update m 2 0
  let m := Function.update m 3 0
  let m := Function.update m 4 0
  let m := Function.update m 5 (2 * itmb)
  let m := Function.update m 6 0
  let m := Function.update m 7 0
  let m := Function.update m 8 0
  let m := Function.update m 9 0
  let m := Function.update m 10 (2 * ifmn)
  let m := Function.update m 11 0
  let m := Function.update m 12 (-(right + left) * irml)
  let m := Function.update m 13 (-(top + bottom) * itmb)
  let m := Function.update m 14 (-(farf + nearf) * ifmn)
  Function.update m 15 1

/-- Source function `build_projection_matrix` (arcan_math.c:149); `tan` is the libm
function and `pi` is `M_PI`. -/
def build_projection_matrix (tan : α → α) (pi : α) (m : Nat → α) (nearv farv aspect fov : α) :
    Nat → α :=
  let h := 1 / tan (fov * (pi / 360))
  let neg_depth := nearv - farv
  let m := Function.update m 0 (h / aspect)
  let m := Function.update m 1 0
  let m := Function.update m 2 0
  let m := Function.update m 3 0
  let m := Function.update m 4 0
  let m := Function.update m 5 h
  let m := Function.update m 6 0
  let m := Function.update m 7 0
  let m := Function.update m 8 0
  let m := Function.update m 9 0
  let m := Function.update m 10 ((farv + nearv) / neg_depth)
  let m := Function.update m 11 (-1)
  let m := Function.update m 12 0
  let m := Function.update m 13 0
  let m := Function.update m 14 (2 * (nearv * farv) / neg_depth)
  Function.update m 15 0

/-! ## Frustum planes -/

/-- Source function `normalize_plane` (arcan_math.c:537); `sqrt` is libm `sqrtf`. -/
def normalize_plane (sqrt : α → α) (pl : Nat → α) : Nat → α :=
  let mag := 1 / sqrt (pl 0 * pl 0 + pl 1 * pl 1 + pl 2 * pl 2)
  let pl := Function.update pl 0 (pl 0 * mag)
  let pl := Function.update pl 1 (pl 1 * mag)
  let pl := Function.update pl 2 (pl 2 * mag)
  Function.update pl 3 (pl 3 * mag)

/-- A store `frustum[i][j] = v` into the two-dimensional array `float frustum[6][4]`. -/
def store2 (frustum : Nat → Nat → α) (i j : Nat) (v : α) : Nat → Nat → α :=
  Function.update frustum i (Function.update (frustum i) j v)

/-- Source function `update_frustum` (arcan_math.c:546).  The local `mmr` starts from
an arbitrary filling (zero here; `multiply_matrix` writes all sixteen cells
before any is read). -/
def update_frustum (sqrt : α → α) (prjm mvm : Nat → α) (frustum : Nat → Nat → α) :
    Nat → Nat → α :=
  let mmr := multiply_matrix (fun _ => 0) mvm prjm
  let frustum := store2 frustum 0 0 (mmr 3 + mmr 0)
  let frustum := store2 frustum 0 1 (mmr 7 + mmr 4)
  let frustum := store2 frustum 0 2 (mmr 11 + mmr 8)
  let frustum := store2 frustum 0 3 (mmr 15 + mmr 12)
  let frustum := Function.update frustum 0 (normalize_plane sqrt (frustum 0))
  let frustum := store2 frustum 1 0 (mmr 3 - mmr 0)
  let frustum := store2 frustum 1 1 (mmr 7 - mmr 4)
  let frustum := store2 frustum 1 2 (mmr 11 - mmr 8)
  let frustum := store2 frustum 1 3 (mmr 15 - mmr 12)
  let frustum := Function.update frustum 1 (normalize_plane sqrt (frustum 1))
  let frustum := store2 frustum 2 0 (mmr 3 - mmr 1)
  let frustum := store2 frustum 2 1 (mmr 7 - mmr 5)
  let frustum := store2 frustum 2 2 (mmr 11 - mmr 9)
  let frustum := store2 frustum 2 3 (mmr 15 - mmr 13)
  let frustum := Function.update frustum 2 (normalize_plane sqrt (frustum 2))
  let frustum := store2 frustum 3 0 (mmr 3 + mmr 1)
  let frustum := store2 frustum 3 1 (mmr 7 + mmr 5)
  let frustum := store2 frustum 3 2 (mmr 11 + mmr 9)
  let frustum := store2 frustum 3 3 (mmr 15 + mmr 13)
  let frustum := Function.update frustum 3 (normalize_plane sqrt (frustum 3))
  let frustum := store2 frustum 4 0 (mmr 3 + mmr 2)
  let frustum := store2 frustum 4 1 (mmr 7 + mmr 6)
  let frustum := store2 frustum 4 2 (mmr 11 + mmr 10)
  let frustum := store2 frustum 4 3 (mmr 15 + mmr 14)
  let frustum := Function.update frustum 4 (normalize_plane sqrt (frustum 4))
  let frustum := store2 frustum 5 0 (mmr 3 - mmr 2)
  let frustum := store2 frustum 5 1 (mmr 7 - mmr 6)
  let frustum := store2 frustum 5 2 (mmr 11 - mmr 10)
  let frustum := store2 frustum 5 3 (mmr 15 - mmr 14)
  Function.update frustum 5 (normalize_plane sqrt (frustum 5))

/-- The buffer holding the elements of `l` in its first cells (a C array
initialiser). -/
def buf_of_list (l : List α) : Nat → α := fun i => l.getD i 0

/-! ## Specification-side definitions -/

/-- Specification of the column-major matrix-vector product `M * v`: row `r`
of the result is the sum over `k = 0..3` of `M[k*4+r] * v[k]`. -/
def spec_mat_vec (M v : Nat → α) (r : Nat) : α :=
  ∑ k in Finset.range 4, M (k * 4 + r) * v k

/-- Specification of the homogeneous point `(x, y, z, 1)`. -/
def spec_point (x y z : α) : Nat → α := fun i => ([x, y, z, 1] : List α).getD i 0

/-- Specification of the clip-space point `P * (M * (x, y, z, 1))`. -/
def spec_clip (M P : Nat → α) (x y z : α) : Nat → α :=
  spec_mat_vec P (spec_mat_vec M (spec_point x y z))

/-- Specification of row `r` of a column-major matrix:
`(C[r], C[4+r], C[8+r], C[12+r])`. -/
def spec_row (C : Nat → α) (r : Nat) : Nat → α := fun k => C (k * 4 + r)

/-- Specification of the six unnormalised frustum planes, in the order left,
right, top, bottom, near, far: `row3 + row0`, `row3 - row0`, `row3 - row1`,
`row3 + row1`, `row3 + row2`, `row3 - row2`. -/
def spec_plane_raw (C : Nat → α) (p : Nat) : Nat → α := fun k =>
  match p with
  | 0 => spec_row C 3 k + spec_row C 0 k
  | 1 => spec_row C 3 k - spec_row C 0 k
  | 2 => spec_row C 3 k - spec_row C 1 k
  | 3 => spec_row C 3 k + spec_row C 1 k
  | 4 => spec_row C 3 k + spec_row C 2 k
  | _ => spec_row C 3 k - spec_row C 2 k

/-- Specification of the Euclidean length of the `(a, b, c)` part of a plane. -/
def spec_abc_len (sqrt : α → α) (pl : Nat → α) : α :=
  sqrt (pl 0 ^ 2 + pl 1 ^ 2 + pl 2 ^ 2)

/-- Specification of the normalised plane `p`: every component of the raw
plane divided by the length of its `(a, b, c)` part. -/
def spec_plane (sqrt : α → α) (C : Nat → α) (p : Nat) : Nat → α := fun k =>
  spec_plane_raw C p k / spec_abc_len sqrt (spec_plane_raw C p)

/-- Specification of the upper-left 3x3 block `R` of a column-major 4x4
buffer: `R[r][c] = m[c*4+r]`. -/
def spec_block3 (m : Nat → α) : Matrix (Fin 3) (Fin 3) α :=
  Matrix.of (fun r c => m (c.val * 4 + r.val))

/-- Specification of the translation matrix `T`: the identity matrix with
entries 12, 13, 14 set to `xt`, `yt`, `zt`. -/
def spec_translation (xt yt zt : α) : Nat → α :=
  Function.update (Function.update (Function.update (identity_matrix (fun _ => 0)) 12 xt) 13 yt)
    14 zt

end defs

/-- The viewport `(0, 0, 800, 600)` as an `int[4]` buffer. -/
def viewport_800_600 : Nat → Int := fun i => ([0, 0, 800, 600] : List Int).getD i 0

/-! ## Theorems -/

/-- C1 (evaluation at the failing input): for `v = (2,0,0)` the length is
`2 ≥ 1e-7`, `norm_vector` returns `(4,0,0)` and its length is `4`, not `1`. -/
theorem norm_vector_two_not_unit :
    (1 : ℝ) / 10000000 ≤ len_vector Real.sqrt (⟨2, 0, 0⟩ : vector ℝ) ∧
    norm_vector Real.sqrt (⟨2, 0, 0⟩ : vector ℝ) = ⟨4, 0, 0⟩ ∧
    len_vector Real.sqrt (norm_vector Real.sqrt (⟨2, 0, 0⟩ : vector ℝ)) = 4 ∧
    len_vector Real.sqrt (norm_vector Real.sqrt (⟨2, 0, 0⟩ : vector ℝ)) ≠ 1 := by
  have h4 : Real.sqrt 4 = 2 := by
    rw [show (4 : ℝ) = 2 ^ 2 by norm_num]
    exact Real.sqrt_sq (by norm_num)
  have h16 : Real.sqrt 16 = 4 := by
    rw [show (16 : ℝ) = 4 ^ 2 by norm_num]
    exact Real.sqrt_sq (by norm_num)
  have hl : len_vector Real.sqrt (⟨2, 0, 0⟩ : vector ℝ) = 2 := by
    simp only [len_vector]
    norm_num [h4]
  have hn : norm_vector Real.sqrt (⟨2, 0, 0⟩ : vector ℝ) = ⟨4, 0, 0⟩ := by
    simp only [norm_vector, hl]
    norm_num
  have hl2 : len_vector Real.sqrt (norm_vector Real.sqrt (⟨2, 0, 0⟩ : vector ℝ)) = 4 := by
    rw [hn]
    simp only [len_vector]
    norm_num [h16]
  refine ⟨?_, hn, hl2, ?_⟩
  · rw [hl]; norm_num
  · rw [hl2]; norm_num

/-- What `update_view` computes for every input: the three angle fields hold
the arguments and the matrix is that of `(Qx(pitch) * Qz(roll)) * Qy(yaw)`. -/
theorem update_view_eq (sin cos : ℝ → ℝ) (pi : ℝ) (dst : orientation ℝ) (roll pitch yaw : ℝ) :
    update_view sin cos pi dst roll pitch yaw =
      { rollf := roll, pitchf := pitch, yawf := yaw,
        matr := matr_quatf_stores
          (mul_quat (mul_quat (build_quat sin cos pi pitch 1 0 0) (build_quat sin cos pi roll 0 0 1))
            (build_quat sin cos pi yaw 0 1 0)) dst.matr } := rfl

/-- Quarter-angle quaternion about Y: `build_quat(90, 0, 1, 0)`. -/
theorem build_quat_90_y :
    build_quat Real.sin Real.cos Real.pi 90 0 1 0 = ⟨0, √2 / 2, 0, √2 / 2⟩ := by
  have h : (90 : ℝ) / 180 * Real.pi / 2 = Real.pi / 4 := by ring
  simp [build_quat, h, Real.sin_pi_div_four, Real.cos_pi_div_four]

/-- Quarter-angle quaternion about Z: `build_quat(90, 0, 0, 1)`. -/
theorem build_quat_90_z :
    build_quat Real.sin Real.cos Real.pi 90 0 0 1 = ⟨0, 0, √2 / 2, √2 / 2⟩ := by
  have h : (90 : ℝ) / 180 * Real.pi / 2 = Real.pi / 4 := by ring
  simp [build_quat, h, Real.sin_pi_div_four, Real.cos_pi_div_four]

/-- Zero-angle quaternion about X: `build_quat(0, 1, 0, 0)` is the unit. -/
theorem build_quat_0_x :
    build_quat Real.sin Real.cos Real.pi 0 1 0 0 = ⟨0, 0, 0, 1⟩ := by
  simp [build_quat]

/-- C2 (evaluation at the failing input): with `roll = 90`, `pitch = 0`,
`yaw = 90` the fields hold the arguments, but entry 1 of the matrix written
by `update_view` is `0`, while entry 1 of the matrix of
`build_quat_euler(90, 0, 90)` is `1`. -/
theorem update_view_differs_from_euler (dst : orientation ℝ) :
    (update_view Real.sin Real.cos Real.pi dst 90 0 90).rollf = 90 ∧
    (update_view Real.sin Real.cos Real.pi dst 90 0 90).pitchf = 0 ∧
    (update_view Real.sin Real.cos Real.pi dst 90 0 90).yawf = 90 ∧
    (update_view Real.sin Real.cos Real.pi dst 90 0 90).matr 1 = 0 ∧
    matr_quatf_stores (build_quat_euler Real.sin Real.cos Real.pi 90 0 90) dst.matr 1 = 1 := by
  have hs : (√2 : ℝ) * √2 = 2 := Real.mul_self_sqrt (by norm_num)
  refine ⟨rfl, rfl, rfl, ?_, ?_⟩
  · rw [update_view_eq, build_quat_0_x, build_quat_90_y, build_quat_90_z]
    simp [matr_quatf_stores, mul_quat, Function.update]
  · rw [build_quat_euler, build_quat_0_x, build_quat_90_y, build_quat_90_z]
    simp [matr_quatf_stores, mul_quat, Function.update]
    ring_nf
    nlinarith [hs]

/-- C3: over the reals `mul_quat` is associative, and it is not commutative
(`i * j = k` while `j * i = -k`). -/
theorem mul_quat_assoc_not_comm :
    (∀ a b c : quat ℝ, mul_quat (mul_quat a b) c = mul_quat a (mul_quat b c)) ∧
    (∃ a b : quat ℝ, mul_quat a b ≠ mul_quat b a) := by
  constructor
  · intro a b c
    simp only [mul_quat, quat.mk.injEq]
    refine ⟨?_, ?_, ?_, ?_⟩ <;> ring
  · refine ⟨⟨1, 0, 0, 0⟩, ⟨0, 1, 0, 0⟩, ?_⟩
    simp only [mul_quat, ne_eq, quat.mk.injEq]
    norm_num

/-- C4: for every unit quaternion `q`, `mul_quat (inv_quat q) q` is the
identity quaternion `(0, 0, 0, 1)`. -/
theorem inv_quat_mul_self (q : quat ℝ)
    (hq : q.x ^ 2 + q.y ^ 2 + q.z ^ 2 + q.w ^ 2 = 1) :
    mul_quat (inv_quat q) q = ⟨0, 0, 0, 1⟩ := by
  simp only [mul_quat, inv_quat, quat.mk.injEq]
  refine ⟨by ring, by ring, by ring, ?_⟩
  linear_combination hq

/-- C4 witness: the unit quaternion `(3/5, 0, 4/5, 0)`. -/
theorem inv_quat_mul_self_witness :
    mul_quat (inv_quat (⟨3 / 5, 0, 4 / 5, 0⟩ : quat ℝ)) ⟨3 / 5, 0, 4 / 5, 0⟩ = ⟨0, 0, 0, 1⟩ :=
  inv_quat_mul_self ⟨3 / 5, 0, 4 / 5, 0⟩ (by norm_num)

/-- C5: for unit quaternions `a`, `b`, `slerp_quat180` returns `a` at `fact = 0`
and `b` at `fact = 1`, whichever weight branch is taken (the proof splits
on `sin θ > 0.005`; the unit-norm hypotheses are not needed by it). -/
theorem slerp_quat180_endpoints (a b : quat ℝ)
    (_ha : a.x ^ 2 + a.y ^ 2 + a.z ^ 2 + a.w ^ 2 = 1)
    (_hb : b.x ^ 2 + b.y ^ 2 + b.z ^ 2 + b.w ^ 2 = 1) :
    slerp_quat180 Real.arccos Real.sin a b 0 = a ∧
    slerp_quat180 Real.arccos Real.sin a b 1 = b := by
  by_cases h : Real.sin (Real.arccos (dot_quat a b)) > 5 / 1000
  · have hne : Real.sin (Real.arccos (dot_quat a b)) ≠ 0 := by
      intro h0
      rw [h0] at h
      norm_num at h
    constructor
    · simp [slerp_quat180, slerp_quatfl, h, add_quat, mul_quatf, div_self hne]
    · simp [slerp_quat180, slerp_quatfl, h, add_quat, mul_quatf, div_self hne]
  · constructor
    · simp [slerp_quat180, slerp_quatfl, h, add_quat, mul_quatf]
    · simp [slerp_quat180, slerp_quatfl, h, add_quat, mul_quatf]

/-- C5 witness: the identity quaternion and `(1, 0, 0, 0)` take the
`sin θ > 0.005` branch (`θ = π/2`). -/
theorem slerp_quat180_endpoints_witness :
    Real.sin (Real.arccos (dot_quat (⟨0, 0, 0, 1⟩ : quat ℝ) ⟨1, 0, 0, 0⟩)) > 5 / 1000 ∧
    slerp_quat180 Real.arccos Real.sin (⟨0, 0, 0, 1⟩ : quat ℝ) ⟨1, 0, 0, 0⟩ 0 = ⟨0, 0, 0, 1⟩ ∧
    slerp_quat180 Real.arccos Real.sin (⟨0, 0, 0, 1⟩ : quat ℝ) ⟨1, 0, 0, 0⟩ 1 = ⟨1, 0, 0, 0⟩ := by
  refine ⟨?_, slerp_quat180_endpoints ⟨0, 0, 0, 1⟩ ⟨1, 0, 0, 0⟩ (by norm_num) (by norm_num)⟩
  simp [dot_quat]
  norm_num

/-- The identity quaternion against itself takes the linear fallback branch
of `slerp_quatfl` (`θ = 0`, `sin θ = 0`). -/
theorem slerp_fallback_branch_reached :
    ¬ Real.sin (Real.arccos (dot_quat (⟨0, 0, 0, 1⟩ : quat ℝ) ⟨0, 0, 0, 1⟩)) > 5 / 1000 := by
  simp [dot_quat]
  norm_num


/-- The loop bound list of the four-step loops. -/
theorem range_four : List.range 4 = [0, 1, 2, 3] := rfl

section lemmas

variable {α : Type} [LinearOrderedField α]

/-- Entry `c*4+r` of the buffer left by the two loops of `multiply_matrix`. -/
theorem multiply_matrix_apply (dst a b : Nat → α) (c r : Nat) (hc : c < 4) (hr : r < 4) :
    multiply_matrix dst a b (c * 4 + r) =
      b (c * 4) * a r + b (c * 4 + 1) * a (r + 4) + b (c * 4 + 2) * a (r + 8)
        + b (c * 4 + 3) * a (r + 12) := by
  simp only [multiply_matrix, range_four, List.foldl_cons, List.foldl_nil]
  interval_cases c <;> interval_cases r <;>
    simp only [Function.update_apply, Nat.reduceMul, Nat.reduceAdd, Nat.reduceEqDiff, ↓reduceIte]

/-- Cell `r` of the buffer left by the loop of `mult_matrix_vecf`. -/
theorem mult_matrix_vecf_apply (matrix inp out : Nat → α) (r : Nat) (hr : r < 4) :
    mult_matrix_vecf matrix inp out r =
      inp 0 * matrix r + inp 1 * matrix (4 + r) + inp 2 * matrix (8 + r)
        + inp 3 * matrix (12 + r) := by
  simp only [mult_matrix_vecf, range_four, List.foldl_cons, List.foldl_nil]
  interval_cases r <;>
    simp only [Function.update_apply, Nat.reduceMul, Nat.reduceAdd, Nat.reduceEqDiff, ↓reduceIte]

/-- The two `mult_matrix_vecf` calls of `project_matrix` leave the
specification's clip-space point in the four cells of `in`. -/
theorem mult_matrix_vecf_clip (M P : Nat → α) (x y z : α) (out0 in0 : Nat → α) (r : Nat)
    (hr : r < 4) :
    mult_matrix_vecf P
      (mult_matrix_vecf M
        (Function.update (Function.update (Function.update (Function.update (fun _ => 0) 0 x) 1 y)
          2 z) 3 1) out0) in0 r = spec_clip M P x y z r := by
  rw [mult_matrix_vecf_apply _ _ _ r hr, mult_matrix_vecf_apply _ _ _ 0 (by decide),
    mult_matrix_vecf_apply _ _ _ 1 (by decide), mult_matrix_vecf_apply _ _ _ 2 (by decide),
    mult_matrix_vecf_apply _ _ _ 3 (by decide)]
  simp only [spec_clip, spec_mat_vec, spec_point, Finset.sum_range_succ, Finset.sum_range_zero,
    Function.update_apply]
  simp
  ring

/-- Closed form of `project_matrix` in terms of the specification's
clip-space point. -/
theorem project_matrix_eq (x y z : α) (M P : Nat → α) (viewport : Nat → Int)
    (winx winy winz : α) :
    project_matrix x y z M P viewport winx winy winz =
      if spec_clip M P x y z 3 = 0 then ⟨0, winx, winy, winz⟩
      else ⟨1,
        (spec_clip M P x y z 0 / spec_clip M P x y z 3 * (5 / 10) + 5 / 10) * (viewport 2 : α)
          + (viewport 0 : α),
        (spec_clip M P x y z 1 / spec_clip M P x y z 3 * (5 / 10) + 5 / 10) * (viewport 3 : α)
          + (viewport 1 : α),
        spec_clip M P x y z 2 / spec_clip M P x y z 3 * (5 / 10) + 5 / 10⟩ := by
  unfold project_matrix
  simp only [mult_matrix_vecf_clip M P x y z _ _ 3 (by decide)]
  split_ifs with hw
  · rfl
  · simp [Function.update_apply, mult_matrix_vecf_clip M P x y z _ _ 0 (by decide),
      mult_matrix_vecf_clip M P x y z _ _ 1 (by decide),
      mult_matrix_vecf_clip M P x y z _ _ 2 (by decide),
      mult_matrix_vecf_clip M P x y z _ _ 3 (by decide)]

/-- The loop body of `pinpoly` with the conditional pushed into the flag:
the next `j` is always the current `i`. -/
theorem pinpoly_step_eq (vertx verty : Nat → α) (testx testy : α) (j : Nat) (c : Int) (i : Nat) :
    pinpoly_step vertx verty testx testy (j, c) i =
      (i, if (decide (verty i > testy) != decide (verty j > testy)) &&
            decide (testx <
              (vertx j - vertx i) * (testy - verty i) / (verty j - verty i) + vertx i)
          then (if c = 0 then 1 else 0) else c) := by
  unfold pinpoly_step
  dsimp only
  split_ifs <;> rfl

end lemmas

/-- C6: `multiply_matrix dst a b` stores the column-major product `A * B`:
for every column `c` and row `r` below 4, entry `c*4+r` of the result is the
sum over `k = 0..3` of `a[k*4+r] * b[c*4+k]`. -/
theorem multiply_matrix_entry (dst a b : Nat → ℝ) (c r : Nat) (hc : c < 4) (hr : r < 4) :
    multiply_matrix dst a b (c * 4 + r) =
      ∑ k in Finset.range 4, a (k * 4 + r) * b (c * 4 + k) := by
  rw [multiply_matrix_apply dst a b c r hc hr]
  simp only [Finset.sum_range_succ, Finset.sum_range_zero]
  ring_nf

/-- C6 witness: column 1, row 2 of the product of two concrete matrices. -/
theorem multiply_matrix_entry_witness :
    multiply_matrix (fun _ => (0 : ℝ)) (fun i => (i : ℝ) + 1) (fun i => 2 * (i : ℝ)) (1 * 4 + 2) =
      ∑ k in Finset.range 4, ((fun i : Nat => (i : ℝ) + 1) (k * 4 + 2)) *
        ((fun i : Nat => 2 * (i : ℝ)) (1 * 4 + k)) :=
  multiply_matrix_entry (fun _ => 0) (fun i => (i : ℝ) + 1) (fun i => 2 * (i : ℝ)) 1 2
    (by decide) (by decide)

/-- C7: the matrix written by `identity_matrix` (into any buffer `m`) is a
left and right unit of `multiply_matrix` on all 16 entries. -/
theorem identity_matrix_unit (dst m M : Nat → ℝ) (i : Nat) (hi : i < 16) :
    multiply_matrix dst (identity_matrix m) M i = M i ∧
    multiply_matrix dst M (identity_matrix m) i = M i := by
  have hd : i = i / 4 * 4 + i % 4 := by omega
  have hc : i / 4 < 4 := by omega
  have hr : i % 4 < 4 := by omega
  rw [hd, multiply_matrix_apply dst _ M _ _ hc hr, multiply_matrix_apply dst M _ _ _ hc hr, ← hd]
  interval_cases i <;> simp [identity_matrix, midentity]

/-- C7 witness: entry 9 of a concrete matrix multiplied by the identity. -/
theorem identity_matrix_unit_witness :
    multiply_matrix (fun _ => (0 : ℝ)) (identity_matrix (fun _ => 7)) (fun i => (i : ℝ) + 1) 9 =
      (fun i : Nat => (i : ℝ) + 1) 9 ∧
    multiply_matrix (fun _ => (0 : ℝ)) (fun i => (i : ℝ) + 1) (identity_matrix (fun _ => 7)) 9 =
      (fun i : Nat => (i : ℝ) + 1) 9 :=
  identity_matrix_unit (fun _ => 0) (fun _ => 7) (fun i => (i : ℝ) + 1) 9 (by decide)

/-- C8: whenever the `w` of `clip = P * (M * (x, y, z, 1))` is non-zero,
`project_matrix` returns 1 and writes
`winx = (clip.x / clip.w * 0.5 + 0.5) * width + x0`,
`winy = (clip.y / clip.w * 0.5 + 0.5) * height + y0`,
`winz = clip.z / clip.w * 0.5 + 0.5`, the viewport being
`(x0, y0, width, height) = viewport[0..3]`. -/
theorem project_matrix_spec (x y z : ℝ) (M P : Nat → ℝ) (viewport : Nat → Int)
    (winx winy winz : ℝ) (hw : spec_clip M P x y z 3 ≠ 0) :
    (project_matrix x y z M P viewport winx winy winz).ret = 1 ∧
    (project_matrix x y z M P viewport winx winy winz).winx =
      (spec_clip M P x y z 0 / spec_clip M P x y z 3 * 0.5 + 0.5) * (viewport 2 : ℝ)
        + (viewport 0 : ℝ) ∧
    (project_matrix x y z M P viewport winx winy winz).winy =
      (spec_clip M P x y z 1 / spec_clip M P x y z 3 * 0.5 + 0.5) * (viewport 3 : ℝ)
        + (viewport 1 : ℝ) ∧
    (project_matrix x y z M P viewport winx winy winz).winz =
      spec_clip M P x y z 2 / spec_clip M P x y z 3 * 0.5 + 0.5 := by
  rw [project_matrix_eq, if_neg hw]
  refine ⟨rfl, ?_, ?_, ?_⟩ <;> norm_num

/-- C8 witness: with identity model and projection matrices, the viewport
`(0, 0, 800, 600)` and the point `(0, 0, 0)`, the clip `w` is non-zero and the
result is `1` with window coordinates `(400, 300, 0.5)`. -/
theorem project_matrix_spec_witness :
    spec_clip (identity_matrix (fun _ => (0 : ℝ))) (identity_matrix (fun _ => (0 : ℝ))) 0 0 0 3 ≠ 0 ∧
    (project_matrix (0 : ℝ) 0 0 (identity_matrix (fun _ => 0)) (identity_matrix (fun _ => 0))
      viewport_800_600 0 0 0).ret = 1 ∧
    (project_matrix (0 : ℝ) 0 0 (identity_matrix (fun _ => 0)) (identity_matrix (fun _ => 0))
      viewport_800_600 0 0 0).winx = 400 ∧
    (project_matrix (0 : ℝ) 0 0 (identity_matrix (fun _ => 0)) (identity_matrix (fun _ => 0))
      viewport_800_600 0 0 0).winy = 300 ∧
    (project_matrix (0 : ℝ) 0 0 (identity_matrix (fun _ => 0)) (identity_matrix (fun _ => 0))
      viewport_800_600 0 0 0).winz = 0.5 := by
  have hI : ∀ r, r < 4 → spec_clip (identity_matrix (fun _ => (0 : ℝ)))
      (identity_matrix (fun _ => (0 : ℝ))) 0 0 0 r = if r = 3 then 1 else 0 := by
    intro r hr
    interval_cases r <;>
      simp [spec_clip, spec_mat_vec, spec_point, identity_matrix, midentity,
        Finset.sum_range_succ]
  have hw : spec_clip (identity_matrix (fun _ => (0 : ℝ))) (identity_matrix (fun _ => (0 : ℝ)))
      0 0 0 3 ≠ 0 := by
    rw [hI 3 (by decide)]; norm_num
  have h := project_matrix_spec 0 0 0 (identity_matrix (fun _ => 0)) (identity_matrix (fun _ => 0))
    viewport_800_600 0 0 0 hw
  rw [hI 0 (by decide), hI 1 (by decide), hI 2 (by decide), hI 3 (by decide)] at h
  refine ⟨hw, h.1, ?_, ?_, ?_⟩
  · rw [h.2.1]; norm_num [viewport_800_600]
  · rw [h.2.2.1]; norm_num [viewport_800_600]
  · rw [h.2.2.2]; norm_num

/-- C9: `project_matrix` returns 0 exactly when the `w` of
`P * (M * (x, y, z, 1))` is zero; in that case the three output cells keep
their prior contents; in every other case it returns 1. -/
theorem project_matrix_fail_iff (x y z : ℝ) (M P : Nat → ℝ) (viewport : Nat → Int)
    (winx winy winz : ℝ) :
    ((project_matrix x y z M P viewport winx winy winz).ret = 0 ↔ spec_clip M P x y z 3 = 0) ∧
    (spec_clip M P x y z 3 = 0 →
      (project_matrix x y z M P viewport winx winy winz).winx = winx ∧
      (project_matrix x y z M P viewport winx winy winz).winy = winy ∧
      (project_matrix x y z M P viewport winx winy winz).winz = winz) ∧
    (spec_clip M P x y z 3 ≠ 0 →
      (project_matrix x y z M P viewport winx winy winz).ret = 1) := by
  rw [project_matrix_eq]
  by_cases hw : spec_clip M P x y z 3 = 0
  · simp [hw]
  · simp [hw]
/-- C9 witness: with an all-zero projection matrix the clip `w` is zero, the
return value is 0 and the prior output contents `(7, 8, 9)` are kept. -/
theorem project_matrix_fail_iff_witness :
    spec_clip (identity_matrix (fun _ => (0 : ℝ))) (fun _ => (0 : ℝ)) 1 2 3 3 = 0 ∧
    (project_matrix (1 : ℝ) 2 3 (identity_matrix (fun _ => 0)) (fun _ => 0)
      viewport_800_600 7 8 9).ret = 0 ∧
    (project_matrix (1 : ℝ) 2 3 (identity_matrix (fun _ => 0)) (fun _ => 0)
      viewport_800_600 7 8 9).winx = 7 ∧
    (project_matrix (1 : ℝ) 2 3 (identity_matrix (fun _ => 0)) (fun _ => 0)
      viewport_800_600 7 8 9).winy = 8 ∧
    (project_matrix (1 : ℝ) 2 3 (identity_matrix (fun _ => 0)) (fun _ => 0)
      viewport_800_600 7 8 9).winz = 9 := by
  have hw : spec_clip (identity_matrix (fun _ => (0 : ℝ))) (fun _ => (0 : ℝ)) 1 2 3 3 = 0 := by
    simp [spec_clip, spec_mat_vec]
  have h := project_matrix_fail_iff 1 2 3 (identity_matrix (fun _ => 0)) (fun _ => 0)
    viewport_800_600 7 8 9
  exact ⟨hw, h.1.mpr hw, h.2.1 hw⟩

/-- C10: for the axis-aligned rectangle `(x0,y0),(x1,y0),(x1,y1),(x0,y1)` with
`x0 < x1` and `y0 < y1`, `pinpoly` returns 1 exactly when `x0 ≤ tx < x1` and
`y0 ≤ ty < y1`, and 0 otherwise. -/
theorem pinpoly_rectangle (x0 x1 y0 y1 tx ty : ℝ) (hx : x0 < x1) (hy : y0 < y1) :
    pinpoly 4 (buf_of_list [x0, x1, x1, x0]) (buf_of_list [y0, y0, y1, y1]) tx ty =
      if x0 ≤ tx ∧ tx < x1 ∧ y0 ≤ ty ∧ ty < y1 then 1 else 0 := by
  simp only [pinpoly, range_four, List.foldl_cons, List.foldl_nil, pinpoly_step_eq, buf_of_list]
  simp
  rcases lt_or_le ty y0 with h1 | h1 <;> rcases lt_or_le ty y1 with h2 | h2 <;>
    rcases lt_or_le tx x0 with h3 | h3 <;> rcases lt_or_le tx x1 with h4 | h4 <;>
    first
    | (exfalso; linarith)
    | simp [h1, h2, h3, h4, not_lt_of_le, not_le_of_lt]

/-- C10 witness: the unit square contains `(0.5, 0.5)` and does not contain
`(2, 2)`. -/
theorem pinpoly_rectangle_witness :
    (0 : ℝ) < 1 ∧
    pinpoly 4 (buf_of_list [(0 : ℝ), 1, 1, 0]) (buf_of_list [(0 : ℝ), 0, 1, 1]) 0.5 0.5 = 1 ∧
    pinpoly 4 (buf_of_list [(0 : ℝ), 1, 1, 0]) (buf_of_list [(0 : ℝ), 0, 1, 1]) 2 2 = 0 := by
  refine ⟨by norm_num, ?_, ?_⟩
  · rw [pinpoly_rectangle 0 1 0 1 0.5 0.5 (by norm_num) (by norm_num)]
    norm_num
  · rw [pinpoly_rectangle 0 1 0 1 2 2 (by norm_num) (by norm_num)]
    norm_num

section lemmas

variable {α : Type} [LinearOrderedField α]

/-- The cells below 16 written by `multiply_matrix` do not depend on the prior
contents of the destination. -/
theorem multiply_matrix_dst_irrel (dst dst' a b : Nat → α) (i : Nat) (hi : i < 16) :
    multiply_matrix dst a b i = multiply_matrix dst' a b i := by
  have hd : i = i / 4 * 4 + i % 4 := by omega
  have hc : i / 4 < 4 := by omega
  have hr : i % 4 < 4 := by omega
  rw [hd, multiply_matrix_apply dst a b _ _ hc hr, multiply_matrix_apply dst' a b _ _ hc hr]

/-- Closed form of `normalize_plane` on its four cells. -/
theorem normalize_plane_apply (sqrt : α → α) (pl : Nat → α) (k : Nat) (hk : k < 4) :
    normalize_plane sqrt pl k = pl k / sqrt (pl 0 ^ 2 + pl 1 ^ 2 + pl 2 ^ 2) := by
  have h : pl 0 * pl 0 + pl 1 * pl 1 + pl 2 * pl 2 = pl 0 ^ 2 + pl 1 ^ 2 + pl 2 ^ 2 := by ring
  interval_cases k <;>
    simp only [normalize_plane, Function.update_apply, Nat.reduceEqDiff, ↓reduceIte,
      OfNat.ofNat_ne_zero, OfNat.zero_ne_ofNat, OfNat.ofNat_ne_one, OfNat.one_ne_ofNat,
      zero_ne_one, one_ne_zero, h, mul_one_div]

/-- Plane `p`, component `k` of the array left by `update_frustum`. -/
theorem update_frustum_apply (sqrt : α → α) (prjm mvm : Nat → α) (frustum : Nat → Nat → α)
    (p k : Nat) (hp : p < 6) (hk : k < 4) :
    update_frustum sqrt prjm mvm frustum p k =
      spec_plane sqrt (multiply_matrix (fun _ => 0) mvm prjm) p k := by
  unfold update_frustum
  interval_cases p <;>
    simp only [store2, Function.update_apply, Nat.reduceEqDiff, ↓reduceIte,
      OfNat.ofNat_ne_zero, OfNat.zero_ne_ofNat, OfNat.ofNat_ne_one, OfNat.one_ne_ofNat,
      zero_ne_one, one_ne_zero, normalize_plane_apply sqrt _ k hk] <;>
    interval_cases k <;>
    simp only [spec_plane, spec_plane_raw, spec_row, spec_abc_len, Function.update_apply,
      Nat.reduceEqDiff, ↓reduceIte, Nat.reduceMul, Nat.reduceAdd,
      OfNat.ofNat_ne_zero, OfNat.zero_ne_ofNat, OfNat.ofNat_ne_one, OfNat.one_ne_ofNat,
      zero_ne_one, one_ne_zero]

/-- The raw planes read only the sixteen matrix cells. -/
theorem spec_plane_raw_congr (C C' : Nat → α) (h : ∀ i, i < 16 → C i = C' i) (p k : Nat)
    (hk : k < 4) : spec_plane_raw C p k = spec_plane_raw C' p k := by
  have e : ∀ r, r < 4 → spec_row C r k = spec_row C' r k := by
    intro r hr
    exact h (k * 4 + r) (by omega)
  unfold spec_plane_raw
  split <;> simp only [e 0 (by decide), e 1 (by decide), e 2 (by decide), e 3 (by decide)]

/-- The normalised planes read only the sixteen matrix cells. -/
theorem spec_plane_congr (sqrt : α → α) (C C' : Nat → α) (h : ∀ i, i < 16 → C i = C' i)
    (p k : Nat) (hk : k < 4) : spec_plane sqrt C p k = spec_plane sqrt C' p k := by
  simp only [spec_plane, spec_abc_len, spec_plane_raw_congr C C' h p k hk,
    spec_plane_raw_congr C C' h p 0 (by decide), spec_plane_raw_congr C C' h p 1 (by decide),
    spec_plane_raw_congr C C' h p 2 (by decide)]

/-- The product of two identity matrices is the identity on its sixteen cells. -/
theorem multiply_matrix_identity (dst m m' : Nat → α) (i : Nat) (hi : i < 16) :
    multiply_matrix dst (identity_matrix m) (identity_matrix m') i =
      (midentity : List α).getD i 0 := by
  have hd : i = i / 4 * 4 + i % 4 := by omega
  have hc : i / 4 < 4 := by omega
  have hr : i % 4 < 4 := by omega
  rw [hd, multiply_matrix_apply dst _ _ _ _ hc hr, ← hd]
  interval_cases i <;> simp [identity_matrix, midentity]

end lemmas

/-- C11: with `C = multiply_matrix(dst, mvm, prjm)` and
`row_r = (C[r], C[4+r], C[8+r], C[12+r])`, plane `p` of `update_frustum` (order
left, right, top, bottom, near, far) is `row3 ± row_q` with every component
divided by the Euclidean length of its first three components; when that
`(a, b, c)` part is non-zero the normalised `(a, b, c)` has length 1. -/
theorem update_frustum_planes (prjm mvm dst : Nat → ℝ) (frustum : Nat → Nat → ℝ) (p : Nat)
    (hp : p < 6) :
    (∀ k, k < 4 → update_frustum Real.sqrt prjm mvm frustum p k =
      spec_plane Real.sqrt (multiply_matrix dst mvm prjm) p k) ∧
    ((spec_plane_raw (multiply_matrix dst mvm prjm) p 0 ≠ 0 ∨
      spec_plane_raw (multiply_matrix dst mvm prjm) p 1 ≠ 0 ∨
      spec_plane_raw (multiply_matrix dst mvm prjm) p 2 ≠ 0) →
      spec_abc_len Real.sqrt (update_frustum Real.sqrt prjm mvm frustum p) = 1) := by
  have key : ∀ k, k < 4 → update_frustum Real.sqrt prjm mvm frustum p k =
      spec_plane Real.sqrt (multiply_matrix dst mvm prjm) p k := by
    intro k hk
    rw [update_frustum_apply Real.sqrt prjm mvm frustum p k hp hk]
    exact spec_plane_congr Real.sqrt _ _
      (fun i hi => multiply_matrix_dst_irrel _ dst mvm prjm i hi) p k hk
  refine ⟨key, ?_⟩
  intro hne
  simp only [spec_abc_len, key 0 (by decide), key 1 (by decide), key 2 (by decide), spec_plane]
  generalize spec_plane_raw (multiply_matrix dst mvm prjm) p 0 = a at hne ⊢
  generalize spec_plane_raw (multiply_matrix dst mvm prjm) p 1 = b at hne ⊢
  generalize spec_plane_raw (multiply_matrix dst mvm prjm) p 2 = c at hne ⊢
  have hpos : 0 < a ^ 2 + b ^ 2 + c ^ 2 := by
    rcases hne with h | h | h
    · have := pow_pos (abs_pos.mpr h) 2
      rw [sq_abs] at this
      nlinarith [sq_nonneg b, sq_nonneg c]
    · have := pow_pos (abs_pos.mpr h) 2
      rw [sq_abs] at this
      nlinarith [sq_nonneg a, sq_nonneg c]
    · have := pow_pos (abs_pos.mpr h) 2
      rw [sq_abs] at this
      nlinarith [sq_nonneg a, sq_nonneg b]
  have hs : 0 < Real.sqrt (a ^ 2 + b ^ 2 + c ^ 2) := Real.sqrt_pos.mpr hpos
  have hsq : Real.sqrt (a ^ 2 + b ^ 2 + c ^ 2) ^ 2 = a ^ 2 + b ^ 2 + c ^ 2 :=
    Real.sq_sqrt hpos.le
  have h1 : (a / Real.sqrt (a ^ 2 + b ^ 2 + c ^ 2)) ^ 2 + (b / Real.sqrt (a ^ 2 + b ^ 2 + c ^ 2)) ^ 2
      + (c / Real.sqrt (a ^ 2 + b ^ 2 + c ^ 2)) ^ 2 = 1 := by
    rw [div_pow, div_pow, div_pow, hsq, ← add_div, ← add_div]
    exact div_self hpos.ne'
  rw [h1, Real.sqrt_one]

/-- C11 witness: for identity `prjm` and `mvm` the six planes are `(1,0,0,1)`,
`(-1,0,0,1)`, `(0,-1,0,1)`, `(0,1,0,1)`, `(0,0,1,1)`, `(0,0,-1,1)`. -/
theorem update_frustum_planes_witness :
    (List.range 4).map (update_frustum Real.sqrt (identity_matrix (fun _ => 0))
      (identity_matrix (fun _ => 0)) (fun _ _ => 0) 0) = [1, 0, 0, 1] ∧
    (List.range 4).map (update_frustum Real.sqrt (identity_matrix (fun _ => 0))
      (identity_matrix (fun _ => 0)) (fun _ _ => 0) 1) = [-1, 0, 0, 1] ∧
    (List.range 4).map (update_frustum Real.sqrt (identity_matrix (fun _ => 0))
      (identity_matrix (fun _ => 0)) (fun _ _ => 0) 2) = [0, -1, 0, 1] ∧
    (List.range 4).map (update_frustum Real.sqrt (identity_matrix (fun _ => 0))
      (identity_matrix (fun _ => 0)) (fun _ _ => 0) 3) = [0, 1, 0, 1] ∧
    (List.range 4).map (update_frustum Real.sqrt (identity_matrix (fun _ => 0))
      (identity_matrix (fun _ => 0)) (fun _ _ => 0) 4) = [0, 0, 1, 1] ∧
    (List.range 4).map (update_frustum Real.sqrt (identity_matrix (fun _ => 0))
      (identity_matrix (fun _ => 0)) (fun _ _ => 0) 5) = [0, 0, -1, 1] := by
  have key : ∀ p, p < 6 → ∀ k, k < 4 →
      update_frustum Real.sqrt (identity_matrix (fun _ => 0)) (identity_matrix (fun _ => 0))
        (fun _ _ => 0) p k =
      spec_plane Real.sqrt (multiply_matrix (fun _ => 0) (identity_matrix (fun _ => 0))
        (identity_matrix (fun _ => 0))) p k :=
    fun p hp => (update_frustum_planes _ _ (fun _ => 0) _ p hp).1
  have hC : ∀ i, i < 16 → multiply_matrix (fun _ => (0 : ℝ)) (identity_matrix (fun _ => 0))
      (identity_matrix (fun _ => 0)) i = (midentity : List ℝ).getD i 0 :=
    fun i hi => multiply_matrix_identity _ _ _ i hi
  simp only [range_four, List.map_cons, List.map_nil]
  refine ⟨?_, ?_, ?_, ?_, ?_, ?_⟩ <;>
    simp [key, spec_plane, spec_plane_raw, spec_row, spec_abc_len, hC, midentity]

section lemmas

variable {α : Type} [LinearOrderedField α]

/-- The sixteen cells written by `build_orthographic_matrix`. -/
theorem build_orthographic_matrix_apply (m : Nat → α) (left right bottom top nearf farf : α)
    (i : Nat) (hi : i < 16) :
    build_orthographic_matrix m left right bottom top nearf farf i =
      ([2 / (right - left), 0, 0, 0,
        0, 2 / (top - bottom), 0, 0,
        0, 0, 2 / (farf - nearf), 0,
        -(right + left) / (right - left), -(top + bottom) / (top - bottom),
        -(farf + nearf) / (farf - nearf), 1] : List α).getD i 0 := by
  interval_cases i <;>
    simp only [build_orthographic_matrix, Function.update_apply, Nat.reduceEqDiff, ↓reduceIte,
      OfNat.ofNat_ne_zero, OfNat.zero_ne_ofNat, OfNat.ofNat_ne_one, OfNat.one_ne_ofNat,
      zero_ne_one, one_ne_zero, mul_one_div, List.getD_cons_zero, List.getD_cons_succ]

end lemmas

/-- C12: for `left ≠ right`, `bottom ≠ top`, `near ≠ far` and any prior buffer,
`build_orthographic_matrix` overwrites all 16 entries: `m[0] = 2/(right-left)`,
`m[5] = 2/(top-bottom)`, `m[10] = 2/(far-near)`,
`m[12] = -(right+left)/(right-left)`, `m[13] = -(top+bottom)/(top-bottom)`,
`m[14] = -(far+near)/(far-near)`, `m[15] = 1` and every other entry 0. -/
theorem build_orthographic_matrix_entries (m : Nat → ℝ) (left right bottom top nearf farf : ℝ)
    (_hlr : left ≠ right) (_hbt : bottom ≠ top) (_hnf : nearf ≠ farf) (i : Nat) (hi : i < 16) :
    build_orthographic_matrix m left right bottom top nearf farf i =
      if i = 0 then 2 / (right - left)
      else if i = 5 then 2 / (top - bottom)
      else if i = 10 then 2 / (farf - nearf)
      else if i = 12 then -(right + left) / (right - left)
      else if i = 13 then -(top + bottom) / (top - bottom)
      else if i = 14 then -(farf + nearf) / (farf - nearf)
      else if i = 15 then 1
      else 0 := by
  rw [build_orthographic_matrix_apply m left right bottom top nearf farf i hi]
  interval_cases i <;> simp

/-- C12 witness: with arguments `(-1, 1, -1, 1, -1, 1)` the sixteen entries are
those written by `identity_matrix`. -/
theorem build_orthographic_matrix_entries_witness :
    (List.range 16).map (build_orthographic_matrix (fun _ => (7 : ℝ)) (-1) 1 (-1) 1 (-1) 1) =
      (List.range 16).map (identity_matrix (fun _ => (0 : ℝ))) := by
  have h : ∀ i, i < 16 → build_orthographic_matrix (fun _ => (7 : ℝ)) (-1) 1 (-1) 1 (-1) 1 i =
      identity_matrix (fun _ => (0 : ℝ)) i := by
    intro i hi
    rw [build_orthographic_matrix_entries (fun _ => 7) (-1) 1 (-1) 1 (-1) 1
      (by norm_num) (by norm_num) (by norm_num) i hi]
    interval_cases i <;> norm_num [identity_matrix, midentity]
  apply List.map_congr_left
  intro i hi
  exact h i (List.mem_range.mp hi)

section lemmas

variable {α : Type} [LinearOrderedField α]

/-- The squared norm is multiplicative under `mul_quat`. -/
theorem mul_quat_norm_sq (a b : quat α) :
    (mul_quat a b).x ^ 2 + (mul_quat a b).y ^ 2 + (mul_quat a b).z ^ 2 + (mul_quat a b).w ^ 2 =
      (a.x ^ 2 + a.y ^ 2 + a.z ^ 2 + a.w ^ 2) * (b.x ^ 2 + b.y ^ 2 + b.z ^ 2 + b.w ^ 2) := by
  simp only [mul_quat]
  ring

/-- Squared norm of `build_quat` in terms of the axis and the half-angle sine
and cosine. -/
theorem build_quat_norm_sq (sin cos : α → α) (pi angdeg vx vy vz : α) :
    (build_quat sin cos pi angdeg vx vy vz).x ^ 2 + (build_quat sin cos pi angdeg vx vy vz).y ^ 2
      + (build_quat sin cos pi angdeg vx vy vz).z ^ 2
      + (build_quat sin cos pi angdeg vx vy vz).w ^ 2 =
      (vx ^ 2 + vy ^ 2 + vz ^ 2) * sin (angdeg / 180 * pi / 2) ^ 2
        + cos (angdeg / 180 * pi / 2) ^ 2 := by
  simp only [build_quat]
  ring

/-- Closed form of `norm_quat`: unchanged strictly inside the window, divided
by the square root of the squared length otherwise. -/
theorem norm_quat_eq (sqrt : α → α) (q : quat α) :
    norm_quat sqrt q =
      if 99999 / 100000 < q.x * q.x + q.y * q.y + q.z * q.z + q.w * q.w ∧
          q.x * q.x + q.y * q.y + q.z * q.z + q.w * q.w < 1000001 / 1000000 then q
      else ⟨q.x / sqrt (q.x * q.x + q.y * q.y + q.z * q.z + q.w * q.w),
            q.y / sqrt (q.x * q.x + q.y * q.y + q.z * q.z + q.w * q.w),
            q.z / sqrt (q.x * q.x + q.y * q.y + q.z * q.z + q.w * q.w),
            q.w / sqrt (q.x * q.x + q.y * q.y + q.z * q.z + q.w * q.w)⟩ := rfl

end lemmas

/-- C13: `build_quat` of any angle about a unit axis is a unit quaternion, and
`build_quat_euler` of any three angles is a unit quaternion. -/
theorem build_quat_unit_norm :
    (∀ angdeg vx vy vz : ℝ, vx ^ 2 + vy ^ 2 + vz ^ 2 = 1 →
      (build_quat Real.sin Real.cos Real.pi angdeg vx vy vz).x ^ 2
        + (build_quat Real.sin Real.cos Real.pi angdeg vx vy vz).y ^ 2
        + (build_quat Real.sin Real.cos Real.pi angdeg vx vy vz).z ^ 2
        + (build_quat Real.sin Real.cos Real.pi angdeg vx vy vz).w ^ 2 = 1) ∧
    (∀ roll pitch yaw : ℝ,
      (build_quat_euler Real.sin Real.cos Real.pi roll pitch yaw).x ^ 2
        + (build_quat_euler Real.sin Real.cos Real.pi roll pitch yaw).y ^ 2
        + (build_quat_euler Real.sin Real.cos Real.pi roll pitch yaw).z ^ 2
        + (build_quat_euler Real.sin Real.cos Real.pi roll pitch yaw).w ^ 2 = 1) := by
  have unit : ∀ angdeg vx vy vz : ℝ, vx ^ 2 + vy ^ 2 + vz ^ 2 = 1 →
      (build_quat Real.sin Real.cos Real.pi angdeg vx vy vz).x ^ 2
        + (build_quat Real.sin Real.cos Real.pi angdeg vx vy vz).y ^ 2
        + (build_quat Real.sin Real.cos Real.pi angdeg vx vy vz).z ^ 2
        + (build_quat Real.sin Real.cos Real.pi angdeg vx vy vz).w ^ 2 = 1 := by
    intro angdeg vx vy vz hv
    rw [build_quat_norm_sq, hv, one_mul]
    exact Real.sin_sq_add_cos_sq _
  refine ⟨unit, ?_⟩
  intro roll pitch yaw
  rw [build_quat_euler, mul_quat_norm_sq, mul_quat_norm_sq, unit pitch 1 0 0 (by norm_num),
    unit yaw 0 1 0 (by norm_num), unit roll 0 0 1 (by norm_num)]
  norm_num

/-- C13 witness: the axis `(3/5, 0, 4/5)` is unit and `build_quat(90, 3/5, 0, 4/5)`
has squared norm 1. -/
theorem build_quat_unit_norm_witness :
    ((3 / 5 : ℝ)) ^ 2 + 0 ^ 2 + (4 / 5) ^ 2 = 1 ∧
    (build_quat Real.sin Real.cos Real.pi 90 (3 / 5) 0 (4 / 5)).x ^ 2
      + (build_quat Real.sin Real.cos Real.pi 90 (3 / 5) 0 (4 / 5)).y ^ 2
      + (build_quat Real.sin Real.cos Real.pi 90 (3 / 5) 0 (4 / 5)).z ^ 2
      + (build_quat Real.sin Real.cos Real.pi 90 (3 / 5) 0 (4 / 5)).w ^ 2 = 1 :=
  ⟨by norm_num, build_quat_unit_norm.1 90 (3 / 5) 0 (4 / 5) (by norm_num)⟩

section lemmas

variable {α : Type} [LinearOrderedField α]

/-- The sixteen cells written by `matr_quatf_stores`. -/
theorem matr_quatf_stores_apply (a : quat α) (d : Nat → α) (i : Nat) (hi : i < 16) :
    matr_quatf_stores a d i =
      ([1 - 2 * (a.y * a.y + a.z * a.z), 2 * (a.x * a.y + a.z * a.w), 2 * (a.x * a.z - a.y * a.w), 0,
        2 * (a.x * a.y - a.z * a.w), 1 - 2 * (a.x * a.x + a.z * a.z), 2 * (a.z * a.y + a.x * a.w), 0,
        2 * (a.x * a.z + a.y * a.w), 2 * (a.y * a.z - a.x * a.w), 1 - 2 * (a.x * a.x + a.y * a.y), 0,
        0, 0, 0, 1] : List α).getD i 0 := by
  interval_cases i <;>
    simp only [matr_quatf_stores, Function.update_apply, Nat.reduceEqDiff, ↓reduceIte,
      OfNat.ofNat_ne_zero, OfNat.zero_ne_ofNat, OfNat.ofNat_ne_one, OfNat.one_ne_ofNat,
      zero_ne_one, one_ne_zero, List.getD_cons_zero, List.getD_cons_succ]

end lemmas

/-- C15: for a unit quaternion `q`, `matr_quatf` on a non-null buffer returns
that buffer with all 16 entries written so that the upper-left 3x3 block `R`
(`R[r][c] = m[c*4+r]`) satisfies `Rᵀ * R = 1` and `det R = 1`, entries 3, 7,
11, 12, 13, 14 are 0 and entry 15 is 1. -/
theorem matr_quatf_rotation (q : quat ℝ) (d : Nat → ℝ)
    (hq : q.x ^ 2 + q.y ^ 2 + q.z ^ 2 + q.w ^ 2 = 1) :
    ∃ m : Nat → ℝ, matr_quatf q (some d) = some m ∧
      (spec_block3 m).transpose * spec_block3 m = 1 ∧
      (spec_block3 m).det = 1 ∧
      m 3 = 0 ∧ m 7 = 0 ∧ m 11 = 0 ∧ m 12 = 0 ∧ m 13 = 0 ∧ m 14 = 0 ∧ m 15 = 1 := by
  refine ⟨matr_quatf_stores q d, rfl, ?_, ?_, ?_⟩
  · ext i j
    fin_cases i <;> fin_cases j <;>
      simp [Matrix.mul_apply, Fin.sum_univ_three, spec_block3, matr_quatf_stores_apply] <;>
      first
      | linear_combination (4 * (q.y ^ 2 + q.z ^ 2)) * hq
      | linear_combination (4 * (q.x ^ 2 + q.z ^ 2)) * hq
      | linear_combination (4 * (q.x ^ 2 + q.y ^ 2)) * hq
      | linear_combination (-4 * q.x * q.y) * hq
      | linear_combination (-4 * q.x * q.z) * hq
      | linear_combination (-4 * q.y * q.z) * hq
  · rw [Matrix.det_fin_three]
    simp [spec_block3, matr_quatf_stores_apply]
    linear_combination (4 * (q.x ^ 2 + q.y ^ 2 + q.z ^ 2)) * hq
  · simp [matr_quatf_stores_apply]

/-- C15 witness: the unit quaternion `(3/5, 0, 4/5, 0)` and a zeroed buffer. -/
theorem matr_quatf_rotation_witness :
    ((3 / 5 : ℝ)) ^ 2 + 0 ^ 2 + (4 / 5) ^ 2 + 0 ^ 2 = 1 ∧
    ∃ m : Nat → ℝ, matr_quatf (⟨3 / 5, 0, 4 / 5, 0⟩ : quat ℝ) (some (fun _ => 0)) = some m ∧
      (spec_block3 m).transpose * spec_block3 m = 1 ∧
      (spec_block3 m).det = 1 ∧
      m 3 = 0 ∧ m 7 = 0 ∧ m 11 = 0 ∧ m 12 = 0 ∧ m 13 = 0 ∧ m 14 = 0 ∧ m 15 = 1 :=
  ⟨by norm_num, matr_quatf_rotation ⟨3 / 5, 0, 4 / 5, 0⟩ (fun _ => 0) (by norm_num)⟩

section lemmas

variable {α : Type} [LinearOrderedField α]

/-- What the `r360` branch of `nlerp_quatfl` computes when `dot_quat a b < 0`:
both summands are scaled copies of `a`; `b` is not read. -/
theorem nlerp_quat360_eq (sqrt : α → α) (a b : quat α) (t : α) (h : dot_quat a b < 0) :
    nlerp_quat360 sqrt a b t =
      norm_quat sqrt (add_quat (mul_quatf a (1 - t)) (mul_quatf a (-t))) := by
  simp [nlerp_quat360, nlerp_quatfl, h]

end lemmas

/-- C16 (counterexample): for `a = (0,0,0,1)`, `b = (0,0,0,-1)` (dot product
`-1`) and `t = 0`, `nlerp_quat360` returns `a`, while the claimed expression
`norm_quat(add_quat(mul_quatf(a, -(1-t)), mul_quatf(b, t)))` is `(0,0,0,-1)`. -/
theorem nlerp_quat360_first_weight_not_negated :
    dot_quat (⟨0, 0, 0, 1⟩ : quat ℝ) ⟨0, 0, 0, -1⟩ < 0 ∧
    nlerp_quat360 Real.sqrt (⟨0, 0, 0, 1⟩ : quat ℝ) ⟨0, 0, 0, -1⟩ 0 = ⟨0, 0, 0, 1⟩ ∧
    norm_quat Real.sqrt (add_quat (mul_quatf (⟨0, 0, 0, 1⟩ : quat ℝ) (-(1 - 0)))
      (mul_quatf ⟨0, 0, 0, -1⟩ 0)) = ⟨0, 0, 0, -1⟩ ∧
    nlerp_quat360 Real.sqrt (⟨0, 0, 0, 1⟩ : quat ℝ) ⟨0, 0, 0, -1⟩ 0 ≠
      norm_quat Real.sqrt (add_quat (mul_quatf (⟨0, 0, 0, 1⟩ : quat ℝ) (-(1 - 0)))
        (mul_quatf ⟨0, 0, 0, -1⟩ 0)) := by
  have hd : dot_quat (⟨0, 0, 0, 1⟩ : quat ℝ) ⟨0, 0, 0, -1⟩ < 0 := by
    norm_num [dot_quat]
  have h1 : nlerp_quat360 Real.sqrt (⟨0, 0, 0, 1⟩ : quat ℝ) ⟨0, 0, 0, -1⟩ 0 = ⟨0, 0, 0, 1⟩ := by
    rw [nlerp_quat360_eq Real.sqrt _ _ _ hd, norm_quat_eq]
    norm_num [add_quat, mul_quatf]
  have h2 : norm_quat Real.sqrt (add_quat (mul_quatf (⟨0, 0, 0, 1⟩ : quat ℝ) (-(1 - 0)))
      (mul_quatf ⟨0, 0, 0, -1⟩ 0)) = ⟨0, 0, 0, -1⟩ := by
    rw [norm_quat_eq]
    norm_num [add_quat, mul_quatf]
  refine ⟨hd, h1, h2, ?_⟩
  rw [h1, h2]
  intro h
  have hw := congrArg quat.w h
  norm_num at hw

/-- C16 (amended): for `dot_quat a b < 0` and every `t`, `nlerp_quat360` keeps the
first operand `a` at weight `1 - t` and puts the negated weight `-t` on its
second summand, which is a scaled copy of one of the two operands. -/
theorem nlerp_quat360_second_weight_negated (a b : quat ℝ) (t : ℝ) (h : dot_quat a b < 0) :
    ∃ c : quat ℝ, (c = a ∨ c = b) ∧
      nlerp_quat360 Real.sqrt a b t =
        norm_quat Real.sqrt (add_quat (mul_quatf a (1 - t)) (mul_quatf c (-t))) :=
  ⟨a, Or.inl rfl, nlerp_quat360_eq Real.sqrt a b t h⟩

/-- C16 witness: `a = (0,0,0,1)`, `b = (1,0,0,-1)` and `t = 1/4`. -/
theorem nlerp_quat360_second_weight_negated_witness :
    dot_quat (⟨0, 0, 0, 1⟩ : quat ℝ) ⟨1, 0, 0, -1⟩ < 0 ∧
    ∃ c : quat ℝ, (c = ⟨0, 0, 0, 1⟩ ∨ c = ⟨1, 0, 0, -1⟩) ∧
      nlerp_quat360 Real.sqrt (⟨0, 0, 0, 1⟩ : quat ℝ) ⟨1, 0, 0, -1⟩ (1 / 4) =
        norm_quat Real.sqrt (add_quat (mul_quatf ⟨0, 0, 0, 1⟩ (1 - 1 / 4)) (mul_quatf c (-(1 / 4)))) :=
  ⟨by norm_num [dot_quat],
    nlerp_quat360_second_weight_negated ⟨0, 0, 0, 1⟩ ⟨1, 0, 0, -1⟩ (1 / 4) (by norm_num [dot_quat])⟩

section lemmas

variable {α : Type} [LinearOrderedField α]

/-- Closed form of `translate_matrix` on every cell. -/
theorem translate_matrix_apply (m : Nat → α) (xt yt zt : α) (i : Nat) :
    translate_matrix m xt yt zt i =
      if i = 15 then m 3 * xt + m 7 * yt + m 11 * zt + m 15
      else if i = 14 then m 2 * xt + m 6 * yt + m 10 * zt + m 14
      else if i = 13 then m 1 * xt + m 5 * yt + m 9 * zt + m 13
      else if i = 12 then m 0 * xt + m 4 * yt + m 8 * zt + m 12
      else m i := by
  simp only [translate_matrix, Function.update_apply, Nat.reduceEqDiff, ↓reduceIte,
    OfNat.ofNat_ne_zero, OfNat.zero_ne_ofNat, OfNat.ofNat_ne_one, OfNat.one_ne_ofNat,
    zero_ne_one, one_ne_zero]

/-- The sixteen cells of the specification's translation matrix. -/
theorem spec_translation_apply (xt yt zt : α) (i : Nat) (hi : i < 16) :
    spec_translation xt yt zt i =
      ([1, 0, 0, 0, 0, 1, 0, 0, 0, 0, 1, 0, xt, yt, zt, 1] : List α).getD i 0 := by
  interval_cases i <;> simp [spec_translation, identity_matrix, midentity, Function.update_apply]

end lemmas

/-- C17: `translate_matrix` leaves entries 0..11 unchanged, produces the same
16 entries as `multiply_matrix(dst, m, T)` with `T` the identity matrix whose
entries 12, 13, 14 are `xt`, `yt`, `zt`, and translating by `t1` and then by
`t2` gives the same matrix as one translation by `t1 + t2`. -/
theorem translate_matrix_is_product (m dst : Nat → ℝ) (xt yt zt : ℝ) :
    (∀ i, i < 12 → translate_matrix m xt yt zt i = m i) ∧
    (∀ i, i < 16 → translate_matrix m xt yt zt i =
      multiply_matrix dst m (spec_translation xt yt zt) i) ∧
    (∀ x2 y2 z2 : ℝ, translate_matrix (translate_matrix m xt yt zt) x2 y2 z2 =
      translate_matrix m (xt + x2) (yt + y2) (zt + z2)) := by
  refine ⟨?_, ?_, ?_⟩
  · intro i hi
    rw [translate_matrix_apply]
    interval_cases i <;> simp
  · intro i hi
    have hd : i = i / 4 * 4 + i % 4 := by omega
    have hc : i / 4 < 4 := by omega
    have hr : i % 4 < 4 := by omega
    rw [translate_matrix_apply, hd, multiply_matrix_apply dst m _ _ _ hc hr, ← hd]
    interval_cases i <;> simp [spec_translation_apply] <;> ring
  · intro x2 y2 z2
    funext i
    simp only [translate_matrix_apply, Nat.reduceEqDiff, ↓reduceIte]
    split_ifs <;> ring

/-- C17 witness: translating a concrete matrix by `(1, 2, 3)`: entry 5 is kept
and entry 13 is that of the product with the translation matrix. -/
theorem translate_matrix_is_product_witness :
    translate_matrix (fun i => (i : ℝ) + 1) 1 2 3 5 = (fun i : Nat => (i : ℝ) + 1) 5 ∧
    translate_matrix (fun i => (i : ℝ) + 1) 1 2 3 13 =
      multiply_matrix (fun _ => 0) (fun i => (i : ℝ) + 1) (spec_translation 1 2 3) 13 :=
  ⟨(translate_matrix_is_product (fun i => (i : ℝ) + 1) (fun _ => 0) 1 2 3).1 5 (by decide),
   (translate_matrix_is_product (fun i => (i : ℝ) + 1) (fun _ => 0) 1 2 3).2.1 13 (by decide)⟩

section lemmas

variable {α : Type} [LinearOrderedField α]

/-- The buffer handed to `translate_matrix` by `matr_lookat`: ten stores into
`m`, cells 3, 7, 11, 12, 13, 14 untouched. -/
theorem matr_lookat_eq (sqrt : α → α) (m : Nat → α) (position dstpos up : vector α) :
    matr_lookat sqrt m position dstpos up =
      translate_matrix
        (Function.update (Function.update (Function.update (Function.update (Function.update
          (Function.update (Function.update (Function.update (Function.update (Function.update m
            0 (norm_vector sqrt (crossp_vector
                (norm_vector sqrt (sub_vector dstpos position)) up)).x)
            1 (crossp_vector (norm_vector sqrt (crossp_vector
                (norm_vector sqrt (sub_vector dstpos position)) up))
                (norm_vector sqrt (sub_vector dstpos position))).x)
            2 (-(norm_vector sqrt (sub_vector dstpos position)).x))
            4 (norm_vector sqrt (crossp_vector
                (norm_vector sqrt (sub_vector dstpos position)) up)).y)
            5 (crossp_vector (norm_vector sqrt (crossp_vector
                (norm_vector sqrt (sub_vector dstpos position)) up))
                (norm_vector sqrt (sub_vector dstpos position))).y)
            6 (-(norm_vector sqrt (sub_vector dstpos position)).y))
            8 (norm_vector sqrt (crossp_vector
                (norm_vector sqrt (sub_vector dstpos position)) up)).z)
            9 (crossp_vector (norm_vector sqrt (crossp_vector
                (norm_vector sqrt (sub_vector dstpos position)) up))
                (norm_vector sqrt (sub_vector dstpos position))).z)
            10 (-(norm_vector sqrt (sub_vector dstpos position)).z))
            15 1)
        (-position.x) (-position.y) (-position.z) := rfl

end lemmas

/-- C18: when entries 3, 7, 11, 12, 13, 14 of `m` are 0 beforehand, with
`fwd = norm_vector(target - position)`, `side = norm_vector(crossp_vector(fwd, up))`
and `rup = crossp_vector(side, fwd)`, `matr_lookat` yields
`(m[0], m[4], m[8]) = side`, `(m[1], m[5], m[9]) = rup`, `(m[2], m[6], m[10]) = -fwd`,
`m[12] = -dot(side, position)`, `m[13] = -dot(rup, position)`,
`m[14] = dot(fwd, position)`, `m[15] = 1`, and entries 3, 7, 11 stay 0. -/
theorem matr_lookat_entries (m : Nat → ℝ) (position dstpos up : vector ℝ)
    (h3 : m 3 = 0) (h7 : m 7 = 0) (h11 : m 11 = 0) (h12 : m 12 = 0) (h13 : m 13 = 0)
    (h14 : m 14 = 0) :
    let fwd := norm_vector Real.sqrt (sub_vector dstpos position)
    let side := norm_vector Real.sqrt (crossp_vector fwd up)
    let rup := crossp_vector side fwd
    let r := matr_lookat Real.sqrt m position dstpos up
    (r 0 = side.x ∧ r 4 = side.y ∧ r 8 = side.z) ∧
    (r 1 = rup.x ∧ r 5 = rup.y ∧ r 9 = rup.z) ∧
    (r 2 = -fwd.x ∧ r 6 = -fwd.y ∧ r 10 = -fwd.z) ∧
    r 12 = -dotp_vector side position ∧
    r 13 = -dotp_vector rup position ∧
    r 14 = dotp_vector fwd position ∧
    r 15 = 1 ∧
    r 3 = 0 ∧ r 7 = 0 ∧ r 11 = 0 := by
  intro fwd side rup r
  have hr : r = matr_lookat Real.sqrt m position dstpos up := rfl
  rw [matr_lookat_eq] at hr
  simp only [hr, translate_matrix_apply, Function.update_apply, Nat.reduceEqDiff, ↓reduceIte,
    OfNat.ofNat_ne_zero, OfNat.zero_ne_ofNat, OfNat.ofNat_ne_one, OfNat.one_ne_ofNat,
    zero_ne_one, one_ne_zero, h3, h7, h11, h12, h13, h14, dotp_vector]
  refine ⟨?_, ?_, ?_, ?_, ?_, ?_, ?_⟩ <;> first | trivial | rfl | ring1 | simp

/-- C18 witness: a zeroed buffer, the camera at `(1, 2, 3)` looking at
`(1, 2, 2)` with world-up `(0, 1, 0)`. -/
theorem matr_lookat_entries_witness :
    let m : Nat → ℝ := fun _ => 0
    let position : vector ℝ := ⟨1, 2, 3⟩
    let dstpos : vector ℝ := ⟨1, 2, 2⟩
    let up : vector ℝ := ⟨0, 1, 0⟩
    let fwd := norm_vector Real.sqrt (sub_vector dstpos position)
    let side := norm_vector Real.sqrt (crossp_vector fwd up)
    let rup := crossp_vector side fwd
    let r := matr_lookat Real.sqrt m position dstpos up
    (m 3 = 0 ∧ m 7 = 0 ∧ m 11 = 0 ∧ m 12 = 0 ∧ m 13 = 0 ∧ m 14 = 0) ∧
    (r 0 = side.x ∧ r 4 = side.y ∧ r 8 = side.z) ∧
    (r 1 = rup.x ∧ r 5 = rup.y ∧ r 9 = rup.z) ∧
    (r 2 = -fwd.x ∧ r 6 = -fwd.y ∧ r 10 = -fwd.z) ∧
    r 12 = -dotp_vector side position ∧
    r 13 = -dotp_vector rup position ∧
    r 14 = dotp_vector fwd position ∧
    r 15 = 1 ∧
    r 3 = 0 ∧ r 7 = 0 ∧ r 11 = 0 :=
  ⟨⟨rfl, rfl, rfl, rfl, rfl, rfl⟩,
    matr_lookat_entries (fun _ => 0) ⟨1, 2, 3⟩ ⟨1, 2, 2⟩ ⟨0, 1, 0⟩ rfl rfl rfl rfl rfl rfl⟩

section lemmas

variable {α : Type} [LinearOrderedField α]

/-- For a unit quaternion the sixteen cells written by `matr_quatf_stores` are
those of the homogeneous (degree-two) rotation matrix. -/
theorem matr_quatf_stores_unit (a : quat α) (d : Nat → α)
    (ha : a.x ^ 2 + a.y ^ 2 + a.z ^ 2 + a.w ^ 2 = 1) (i : Nat) (hi : i < 16) :
    matr_quatf_stores a d i =
      ([a.w * a.w + a.x * a.x - a.y * a.y - a.z * a.z, 2 * (a.x * a.y + a.z * a.w),
        2 * (a.x * a.z - a.y * a.w), 0,
        2 * (a.x * a.y - a.z * a.w), a.w * a.w - a.x * a.x + a.y * a.y - a.z * a.z,
        2 * (a.z * a.y + a.x * a.w), 0,
        2 * (a.x * a.z + a.y * a.w), 2 * (a.y * a.z - a.x * a.w),
        a.w * a.w - a.x * a.x - a.y * a.y + a.z * a.z, 0,
        0, 0, 0, 1] : List α).getD i 0 := by
  rw [matr_quatf_stores_apply a d i hi]
  interval_cases i <;> simp only [List.getD_cons_zero, List.getD_cons_succ] <;>
    linear_combination (-1 : α) * ha

/-- Entrywise, the product of the matrices of two unit quaternions is the
matrix of their product. -/
theorem matr_quatf_stores_mul (a b : quat α) (dst d1 d2 d3 : Nat → α)
    (ha : a.x ^ 2 + a.y ^ 2 + a.z ^ 2 + a.w ^ 2 = 1)
    (hb : b.x ^ 2 + b.y ^ 2 + b.z ^ 2 + b.w ^ 2 = 1) (i : Nat) (hi : i < 16) :
    multiply_matrix dst (matr_quatf_stores a d1) (matr_quatf_stores b d2) i =
      matr_quatf_stores (mul_quat a b) d3 i := by
  have hab : (mul_quat a b).x ^ 2 + (mul_quat a b).y ^ 2 + (mul_quat a b).z ^ 2
      + (mul_quat a b).w ^ 2 = 1 := by
    rw [mul_quat_norm_sq, ha, hb, one_mul]
  have hd : i = i / 4 * 4 + i % 4 := by omega
  have hc : i / 4 < 4 := by omega
  have hr : i % 4 < 4 := by omega
  rw [matr_quatf_stores_unit (mul_quat a b) d3 hab i hi, hd,
    multiply_matrix_apply dst _ _ _ _ hc hr, ← hd]
  interval_cases i <;>
    simp only [Nat.reduceDiv, Nat.reduceMod, Nat.reduceMul, Nat.reduceAdd, zero_add,
      matr_quatf_stores_unit a d1 ha _ (by decide : (0 : Nat) < 16),
      matr_quatf_stores_unit a d1 ha _ (by decide : (1 : Nat) < 16),
      matr_quatf_stores_unit a d1 ha _ (by decide : (2 : Nat) < 16),
      matr_quatf_stores_unit a d1 ha _ (by decide : (3 : Nat) < 16),
      matr_quatf_stores_unit a d1 ha _ (by decide : (4 : Nat) < 16),
      matr_quatf_stores_unit a d1 ha _ (by decide : (5 : Nat) < 16),
      matr_quatf_stores_unit a d1 ha _ (by decide : (6 : Nat) < 16),
      matr_quatf_stores_unit a d1 ha _ (by decide : (7 : Nat) < 16),
      matr_quatf_stores_unit a d1 ha _ (by decide : (8 : Nat) < 16),
      matr_quatf_stores_unit a d1 ha _ (by decide : (9 : Nat) < 16),
      matr_quatf_stores_unit a d1 ha _ (by decide : (10 : Nat) < 16),
      matr_quatf_stores_unit a d1 ha _ (by decide : (11 : Nat) < 16),
      matr_quatf_stores_unit a d1 ha _ (by decide : (12 : Nat) < 16),
      matr_quatf_stores_unit a d1 ha _ (by decide : (13 : Nat) < 16),
      matr_quatf_stores_unit a d1 ha _ (by decide : (14 : Nat) < 16),
      matr_quatf_stores_unit a d1 ha _ (by decide : (15 : Nat) < 16),
      matr_quatf_stores_unit b d2 hb _ (by decide : (0 : Nat) < 16),
      matr_quatf_stores_unit b d2 hb _ (by decide : (1 : Nat) < 16),
      matr_quatf_stores_unit b d2 hb _ (by decide : (2 : Nat) < 16),
      matr_quatf_stores_unit b d2 hb _ (by decide : (3 : Nat) < 16),
      matr_quatf_stores_unit b d2 hb _ (by decide : (4 : Nat) < 16),
      matr_quatf_stores_unit b d2 hb _ (by decide : (5 : Nat) < 16),
      matr_quatf_stores_unit b d2 hb _ (by decide : (6 : Nat) < 16),
      matr_quatf_stores_unit b d2 hb _ (by decide : (7 : Nat) < 16),
      matr_quatf_stores_unit b d2 hb _ (by decide : (8 : Nat) < 16),
      matr_quatf_stores_unit b d2 hb _ (by decide : (9 : Nat) < 16),
      matr_quatf_stores_unit b d2 hb _ (by decide : (10 : Nat) < 16),
      matr_quatf_stores_unit b d2 hb _ (by decide : (11 : Nat) < 16),
      matr_quatf_stores_unit b d2 hb _ (by decide : (12 : Nat) < 16),
      matr_quatf_stores_unit b d2 hb _ (by decide : (13 : Nat) < 16),
      matr_quatf_stores_unit b d2 hb _ (by decide : (14 : Nat) < 16),
      matr_quatf_stores_unit b d2 hb _ (by decide : (15 : Nat) < 16),
      List.getD_cons_zero, List.getD_cons_succ, mul_quat] <;>
    ring

end lemmas

/-- C19: for unit quaternions `a` and `b` (and any non-null buffers),
`multiply_matrix(dst, matr_quatf(a), matr_quatf(b))` has exactly the 16
entries of `matr_quatf(mul_quat(a, b))`. -/
theorem matr_quatf_homomorphism (a b : quat ℝ) (dst d1 d2 d3 : Nat → ℝ)
    (ha : a.x ^ 2 + a.y ^ 2 + a.z ^ 2 + a.w ^ 2 = 1)
    (hb : b.x ^ 2 + b.y ^ 2 + b.z ^ 2 + b.w ^ 2 = 1) :
    ∃ A B C : Nat → ℝ,
      matr_quatf a (some d1) = some A ∧ matr_quatf b (some d2) = some B ∧
      matr_quatf (mul_quat a b) (some d3) = some C ∧
      ∀ i, i < 16 → multiply_matrix dst A B i = C i :=
  ⟨matr_quatf_stores a d1, matr_quatf_stores b d2, matr_quatf_stores (mul_quat a b) d3,
    rfl, rfl, rfl, fun i hi => matr_quatf_stores_mul a b dst d1 d2 d3 ha hb i hi⟩

/-- C19 witness: the unit quaternions `(3/5, 0, 4/5, 0)` and `(0, 1, 0, 0)`. -/
theorem matr_quatf_homomorphism_witness :
    ((3 / 5 : ℝ)) ^ 2 + 0 ^ 2 + (4 / 5) ^ 2 + 0 ^ 2 = 1 ∧
    ((0 : ℝ)) ^ 2 + 1 ^ 2 + 0 ^ 2 + 0 ^ 2 = 1 ∧
    ∃ A B C : Nat → ℝ,
      matr_quatf (⟨3 / 5, 0, 4 / 5, 0⟩ : quat ℝ) (some (fun _ => 0)) = some A ∧
      matr_quatf (⟨0, 1, 0, 0⟩ : quat ℝ) (some (fun _ => 0)) = some B ∧
      matr_quatf (mul_quat (⟨3 / 5, 0, 4 / 5, 0⟩ : quat ℝ) ⟨0, 1, 0, 0⟩) (some (fun _ => 0))
        = some C ∧
      ∀ i, i < 16 → multiply_matrix (fun _ => 0) A B i = C i :=
  ⟨by norm_num, by norm_num,
    matr_quatf_homomorphism ⟨3 / 5, 0, 4 / 5, 0⟩ ⟨0, 1, 0, 0⟩ (fun _ => 0) (fun _ => 0)
      (fun _ => 0) (fun _ => 0) (by norm_num) (by norm_num)⟩

section lemmas

variable {α : Type} [LinearOrderedField α]

/-- The sixteen cells written by `build_projection_matrix`. -/
theorem build_projection_matrix_apply (tan : α → α) (pi : α) (m : Nat → α)
    (nearv farv aspect fov : α) (i : Nat) (hi : i < 16) :
    build_projection_matrix tan pi m nearv farv aspect fov i =
      ([1 / tan (fov * (pi / 360)) / aspect, 0, 0, 0,
        0, 1 / tan (fov * (pi / 360)), 0, 0,
        0, 0, (farv + nearv) / (nearv - farv), -1,
        0, 0, 2 * (nearv * farv) / (nearv - farv), 0] : List α).getD i 0 := by
  interval_cases i <;>
    simp only [build_projection_matrix, Function.update_apply, Nat.reduceEqDiff, ↓reduceIte,
      OfNat.ofNat_ne_zero, OfNat.zero_ne_ofNat, OfNat.ofNat_ne_one, OfNat.one_ne_ofNat,
      zero_ne_one, one_ne_zero, List.getD_cons_zero, List.getD_cons_succ]

/-- Clip-space point under an identity model matrix: row `r` of `P * (x, y, z, 1)`. -/
theorem spec_clip_identity (m P : Nat → α) (x y z : α) (r : Nat) (hr : r < 4) :
    spec_clip (identity_matrix m) P x y z r =
      P r * x + P (4 + r) * y + P (8 + r) * z + P (12 + r) := by
  interval_cases r <;>
    simp [spec_clip, spec_mat_vec, spec_point, identity_matrix, midentity,
      Finset.sum_range_succ]

/-- Under an identity model matrix and the matrix of `build_projection_matrix`
the clip-space `z` and `w` of a point are `(f+n)/(n-f) * z + 2nf/(n-f)` and `-z`. -/
theorem spec_clip_projection (tan : α → α) (pi : α) (m m' : Nat → α)
    (nearv farv aspect fov x y z : α) :
    spec_clip (identity_matrix m') (build_projection_matrix tan pi m nearv farv aspect fov)
      x y z 2 = (farv + nearv) / (nearv - farv) * z + 2 * (nearv * farv) / (nearv - farv) ∧
    spec_clip (identity_matrix m') (build_projection_matrix tan pi m nearv farv aspect fov)
      x y z 3 = -z := by
  constructor
  · rw [spec_clip_identity _ _ _ _ _ 2 (by decide)]
    simp [build_projection_matrix_apply]
  · rw [spec_clip_identity _ _ _ _ _ 3 (by decide)]
    simp [build_projection_matrix_apply]

end lemmas

/-- C20: for `0 < near < far`, non-zero aspect and `tan(fov*pi/360) ≠ 0`, with an
identity model matrix and the matrix written by `build_projection_matrix`,
the homogeneous `w` of every point is `-z`, `project_matrix` returns 1 for
every point with `z ≠ 0` and any viewport, the point `(0, 0, -near)` gets
`winz = 0` and the point `(0, 0, -far)` gets `winz = 1`. -/
theorem projection_depth_range (nearv farv aspect fov : ℝ) (m m' : Nat → ℝ)
    (hn : 0 < nearv) (hnf : nearv < farv) (_ha : aspect ≠ 0)
    (_ht : Real.tan (fov * (Real.pi / 360)) ≠ 0) :
    (∀ (x y z : ℝ) (viewport : Nat → Int) (winx winy winz : ℝ), z ≠ 0 →
      spec_clip (identity_matrix m')
        (build_projection_matrix Real.tan Real.pi m nearv farv aspect fov) x y z 3 = -z ∧
      (project_matrix x y z (identity_matrix m')
        (build_projection_matrix Real.tan Real.pi m nearv farv aspect fov)
        viewport winx winy winz).ret = 1) ∧
    (∀ (viewport : Nat → Int) (winx winy winz : ℝ),
      (project_matrix 0 0 (-nearv) (identity_matrix m')
        (build_projection_matrix Real.tan Real.pi m nearv farv aspect fov)
        viewport winx winy winz).winz = 0) ∧
    (∀ (viewport : Nat → Int) (winx winy winz : ℝ),
      (project_matrix 0 0 (-farv) (identity_matrix m')
        (build_projection_matrix Real.tan Real.pi m nearv farv aspect fov)
        viewport winx winy winz).winz = 1) := by
  have hd : nearv - farv ≠ 0 := by
    intro h
    linarith
  have hf : 0 < farv := by linarith
  refine ⟨?_, ?_, ?_⟩
  · intro x y z viewport winx winy winz hz
    have hw := (spec_clip_projection Real.tan Real.pi m m' nearv farv aspect fov x y z).2
    refine ⟨hw, ?_⟩
    rw [project_matrix_eq, hw, if_neg (neg_ne_zero.mpr hz)]
  · intro viewport winx winy winz
    rw [project_matrix_eq,
      (spec_clip_projection Real.tan Real.pi m m' nearv farv aspect fov 0 0 (-nearv)).1,
      (spec_clip_projection Real.tan Real.pi m m' nearv farv aspect fov 0 0 (-nearv)).2,
      if_neg (by simpa using hn.ne')]
    show _ / _ * (5 / 10 : ℝ) + 5 / 10 = 0
    field_simp
    ring
  · intro viewport winx winy winz
    rw [project_matrix_eq,
      (spec_clip_projection Real.tan Real.pi m m' nearv farv aspect fov 0 0 (-farv)).1,
      (spec_clip_projection Real.tan Real.pi m m' nearv farv aspect fov 0 0 (-farv)).2,
      if_neg (by simpa using hf.ne')]
    show _ / _ * (5 / 10 : ℝ) + 5 / 10 = 1
    field_simp
    ring

/-- C20 witness: `near = 1`, `far = 2`, `aspect = 1`, `fov = 90` (so that
`tan(fov*pi/360) = tan(pi/4) = 1`): the point `(1, 2, 3)` projects with return
value 1, `(0, 0, -1)` gets `winz = 0` and `(0, 0, -2)` gets `winz = 1`. -/
theorem projection_depth_range_witness :
    Real.tan (90 * (Real.pi / 360)) ≠ 0 ∧
    (project_matrix (1 : ℝ) 2 3 (identity_matrix (fun _ => 0))
      (build_projection_matrix Real.tan Real.pi (fun _ => 0) 1 2 1 90)
      viewport_800_600 0 0 0).ret = 1 ∧
    (project_matrix (0 : ℝ) 0 (-1) (identity_matrix (fun _ => 0))
      (build_projection_matrix Real.tan Real.pi (fun _ => 0) 1 2 1 90)
      viewport_800_600 0 0 0).winz = 0 ∧
    (project_matrix (0 : ℝ) 0 (-2) (identity_matrix (fun _ => 0))
      (build_projection_matrix Real.tan Real.pi (fun _ => 0) 1 2 1 90)
      viewport_800_600 0 0 0).winz = 1 := by
  have ht : Real.tan (90 * (Real.pi / 360)) ≠ 0 := by
    rw [show (90 : ℝ) * (Real.pi / 360) = Real.pi / 4 by ring, Real.tan_pi_div_four]
    exact one_ne_zero
  have h := projection_depth_range 1 2 1 90 (fun _ => 0) (fun _ => 0) (by norm_num)
    (by norm_num) (by norm_num) ht
  exact ⟨ht, (h.1 1 2 3 viewport_800_600 0 0 0 (by norm_num)).2,
    h.2.1 viewport_800_600 0 0 0, h.2.2 viewport_800_600 0 0 0⟩

end Arcan
